import Mathlib

/-!
A shallow embedding of the Yoyo rendering engine (HTML parser, CSS parser,
style resolver, layout engine, painter) and proofs about it.

Modelling conventions:
* Rust `f32` arithmetic is modelled by exact rational arithmetic (`ℚ`).
* Rust `HashMap` property/attribute maps are modelled as association lists
  whose insert replaces an existing binding; lookups agree with `HashMap`.
* Functions that can panic in the source (`unwrap`, `assert!`, `todo!`,
  array indexing) are modelled in `Option`: `none` is a panic.
* The parsers work over `List Char` (the remaining input); for the ASCII
  inputs of the grammar this coincides with the byte-position cursor of the
  source.
-/

namespace Yoyo

/-! ## CSS data model (src/css.rs) -/

/-- Source: `enum Unit` in css.rs (named `CssUnit` here because `Unit` is taken). -/
inductive CssUnit where
  | Px
deriving DecidableEq, Repr

/-- Source: `struct Color` in css.rs; u8 channels modelled as ℕ. -/
structure Color where
  r : ℕ
  g : ℕ
  b : ℕ
  a : ℕ
deriving DecidableEq, Repr

/-- Source: `enum Value` in css.rs. The color constructor is lowercase to avoid
clashing with the `Color` structure. -/
inductive Value where
  | Keyword (s : String)
  | Length (f : ℚ) (u : CssUnit)
  | color (c : Color)
deriving DecidableEq, Repr

/-- Source: `Value::to_px` in css.rs. -/
def Value.to_px : Value → ℚ
  | .Length f .Px => f
  | _ => 0

/-- Source: `struct SimpleSelector` in css.rs (`class` is a Lean keyword, so the
field is named `cls`). -/
structure SimpleSelector where
  tag_name : Option String
  id : Option String
  cls : List String
deriving DecidableEq, Repr

/-- Source: `enum Selector` in css.rs. -/
inductive Selector where
  | Simple (s : SimpleSelector)
deriving DecidableEq, Repr

/-- Source: `struct Declaration` in css.rs. -/
structure Declaration where
  name : String
  value : Value
deriving DecidableEq, Repr

/-- Source: `struct Rule` in css.rs. -/
structure Rule where
  selectors : List Selector
  declarations : List Declaration
deriving DecidableEq, Repr

/-- Source: `struct StyleSheet` in css.rs. -/
structure StyleSheet where
  rules : List Rule
deriving DecidableEq, Repr

/-- Source: `type Specificity = (usize, usize, usize)` in css.rs. -/
abbrev Specificity := ℕ × ℕ × ℕ

/-- Source: `Selector::specificity` in css.rs: (id count, class count, tag count). -/
def Selector.specificity : Selector → Specificity
  | .Simple simple => (simple.id.toList.length, simple.cls.length, simple.tag_name.toList.length)

/-! ## DOM data model (src/dom.rs) -/

/-- Attribute map; Rust `HashMap<String, String>` modelled as an association
list with replacing insert. -/
abbrev AttrMap := List (String × String)

/-- Lookup in an association list, as `HashMap::get`. -/
def alistGet (m : List (String × String)) (k : String) : Option String :=
  (m.find? (fun p => p.1 = k)).map (·.2)

/-- Replacing insert, as `HashMap::insert` (last writer wins). -/
def alistInsert (m : List (String × String)) (k v : String) : List (String × String) :=
  if (m.find? (fun p => p.1 = k)).isSome then
    m.map (fun p => if p.1 = k then (k, v) else p)
  else
    m ++ [(k, v)]

/-- Source: `struct ElementData` in dom.rs. -/
structure ElementData where
  tag_name : String
  attributes : AttrMap
deriving DecidableEq, Repr

/-- Source: `ElementData::id` in dom.rs. -/
def ElementData.id (e : ElementData) : Option String :=
  alistGet e.attributes "id"

/-- Source: `ElementData::classes` in dom.rs: split the `class` attribute on a
single space (`HashSet` membership is modelled by list membership). -/
def ElementData.classes (e : ElementData) : List String :=
  match alistGet e.attributes "class" with
  | some class_list => class_list.splitOn " "
  | none => []

/-- Source: `enum NodeType` in dom.rs. -/
inductive NodeType where
  | Text (s : String)
  | Element (e : ElementData)
  | Comment
deriving DecidableEq, Repr

/-- Source: `struct Node` in dom.rs. -/
inductive Node where
  | mk (node_type : NodeType) (children : List Node)
deriving Repr

def Node.node_type : Node → NodeType
  | .mk t _ => t

def Node.children : Node → List Node
  | .mk _ c => c

/-- Source: `dom::text`. -/
def Node.text (data : String) : Node := .mk (.Text data) []

/-- Source: `dom::comment`. -/
def Node.comment : Node := .mk .Comment []

/-- Source: `dom::element`. -/
def Node.element (tag_name : String) (attrs : AttrMap) (children : List Node) : Node :=
  .mk (.Element ⟨tag_name, attrs⟩) children

/-! ## Style resolver (src/style.rs) -/

/-- Property map, Rust `HashMap<String, Value>` as an association list. -/
abbrev PropertyMap := List (String × Value)

def propGet (m : PropertyMap) (k : String) : Option Value :=
  (m.find? (fun p => p.1 = k)).map (·.2)

def propInsert (m : PropertyMap) (k : String) (v : Value) : PropertyMap :=
  if (m.find? (fun p => p.1 = k)).isSome then
    m.map (fun p => if p.1 = k then (k, v) else p)
  else
    m ++ [(k, v)]

/-- Source: `struct StyledNode` in style.rs. -/
inductive StyledNode where
  | mk (node : Node) (specified_values : PropertyMap) (children : List StyledNode)
deriving Repr

def StyledNode.node : StyledNode → Node
  | .mk n _ _ => n

def StyledNode.specified_values : StyledNode → PropertyMap
  | .mk _ sv _ => sv

def StyledNode.children : StyledNode → List StyledNode
  | .mk _ _ c => c

/-- Source: `enum Display` in style.rs. -/
inductive Display where
  | Block
  | Inline
  | None
deriving DecidableEq, Repr

/-- Source: `StyledNode::value` in style.rs. -/
def StyledNode.value (s : StyledNode) (name : String) : Option Value :=
  propGet s.specified_values name

/-- Source: `StyledNode::lookup` in style.rs. -/
def StyledNode.lookup (s : StyledNode) (name fallback_name : String) (dflt : Value) : Value :=
  (s.value name).getD ((s.value fallback_name).getD dflt)

/-- Source: `StyledNode::display` in style.rs: keyword "block" → Block, keyword
"inline" → Inline, any other keyword → None, anything else → Inline. -/
def StyledNode.display (s : StyledNode) : Display :=
  match s.value "display" with
  | some (.Keyword k) =>
    if k = "block" then .Block
    else if k = "inline" then .Inline
    else .None
  | _ => .Inline

/-- Source: `matches_simple_selectors` in style.rs. -/
def matches_simple_selectors (elem : ElementData) (selector : SimpleSelector) : Bool :=
  if selector.tag_name.any (fun name => elem.tag_name ≠ name) then false
  else if selector.id.any (fun i => elem.id ≠ some i) then false
  else if selector.cls.any (fun c => ¬ elem.classes.contains c) then false
  else true

/-- Source: `matches` in style.rs. -/
def matches' (elem : ElementData) : Selector → Bool
  | .Simple simple => matches_simple_selectors elem simple

/-- Source: `type MatchedRule`. -/
abbrev MatchedRule := Specificity × Rule

/-- Source: `match_rule` in style.rs: the first selector of the rule that
matches, paired with its specificity. -/
def match_rule (elem : ElementData) (rule : Rule) : Option MatchedRule :=
  (rule.selectors.find? (matches' elem)).map (fun sel => (sel.specificity, rule))

/-- Source: `match_rules` in style.rs. -/
def match_rules (elem : ElementData) (style_sheet : StyleSheet) : List MatchedRule :=
  style_sheet.rules.filterMap (match_rule elem)

/-- Lexicographic comparison of specificities, as the derived `Ord` on Rust
tuples used by `rules.sort_by(|a, b| a.cmp(&b))`. -/
def specLE : Specificity → Specificity → Bool
  | (a1, b1, c1), (a2, b2, c2) =>
    a1 < a2 || (a1 = a2 && (b1 < b2 || (b1 = b2 && c1 ≤ c2)))

/-- Insert into a list sorted by specificity, after all entries whose
specificity is ≤ the new one. -/
def insortRule (x : MatchedRule) : List MatchedRule → List MatchedRule
  | [] => [x]
  | y :: ys => if specLE y.1 x.1 then y :: insortRule x ys else x :: y :: ys

/-- Stable ascending sort by specificity. Rust's `sort_by` is a stable sort;
a stable sort's output is uniquely determined by the comparison, so this
stable insertion sort computes exactly what `rules.sort_by(...)` computes. -/
def sortRules (rules : List MatchedRule) : List MatchedRule :=
  rules.foldl (fun acc x => insortRule x acc) []

/-- Source: `specified_values` in style.rs: sort matched rules by ascending
specificity (stable), then apply all declarations in order, last writer wins. -/
def specified_values (elem : ElementData) (style_sheet : StyleSheet) : PropertyMap :=
  (sortRules (match_rules elem style_sheet)).foldl
    (fun values (_, rule) =>
      rule.declarations.foldl
        (fun values decl => propInsert values decl.name decl.value) values)
    []

/-- Source: `style_tree` in style.rs. The `Comment` arm of the source is
`todo!()`, i.e. a panic, modelled as `none`. -/
def style_tree (root : Node) (style_sheet : StyleSheet) : Option StyledNode :=
  match root with
  | .mk nt children => do
    let sv ← match nt with
      | .Element elem => some (specified_values elem style_sheet)
      | .Text _ => some []
      | .Comment => none
    let styledChildren ← styleChildren children style_sheet
    some (.mk (.mk nt children) sv styledChildren)
where
  styleChildren : List Node → StyleSheet → Option (List StyledNode)
    | [], _ => some []
    | c :: rest, sheet => do
      let c' ← style_tree c sheet
      let rest' ← styleChildren rest sheet
      some (c' :: rest')

/-! ## Layout engine (src/layout.rs) -/

/-- Source: `struct Rect` in layout.rs; `f32` modelled as ℚ. -/
structure Rect where
  width : ℚ
  height : ℚ
  x : ℚ
  y : ℚ
deriving DecidableEq, Repr

/-- Source: `struct EdgeSizes` in layout.rs. -/
structure EdgeSizes where
  top : ℚ
  right : ℚ
  bottom : ℚ
  left : ℚ
deriving DecidableEq, Repr

/-- Source: `struct Dimensions` in layout.rs. -/
structure Dimensions where
  content : Rect
  padding : EdgeSizes
  border : EdgeSizes
  margin : EdgeSizes
deriving DecidableEq, Repr

/-- Rust `Default` for `Rect`: all fields zero. -/
def Rect.zero : Rect := ⟨0, 0, 0, 0⟩

/-- Rust `Default` for `EdgeSizes`: all fields zero. -/
def EdgeSizes.zero : EdgeSizes := ⟨0, 0, 0, 0⟩

/-- Rust `Default` for `Dimensions`: all fields zero. -/
def Dimensions.zero : Dimensions := ⟨Rect.zero, EdgeSizes.zero, EdgeSizes.zero, EdgeSizes.zero⟩

/-- Source: `Rect::expanded_by` in layout.rs. -/
def Rect.expanded_by (r : Rect) (edge : EdgeSizes) : Rect :=
  { x := r.x - edge.left
    y := r.y - edge.top
    width := r.width + edge.left + edge.right
    height := r.height + edge.top + edge.bottom }

/-- Source: `Dimensions::padding_box`. -/
def Dimensions.padding_box (d : Dimensions) : Rect :=
  d.content.expanded_by d.padding

/-- Source: `Dimensions::border_box`. -/
def Dimensions.border_box (d : Dimensions) : Rect :=
  d.padding_box.expanded_by d.border

/-- Source: `Dimensions::margin_box`. -/
def Dimensions.margin_box (d : Dimensions) : Rect :=
  d.border_box.expanded_by d.margin

/-- Source: `enum BoxType` in layout.rs. -/
inductive BoxType where
  | BlockNode (s : StyledNode)
  | InlineNode (s : StyledNode)
  | AnonymousBlock
deriving Repr

/-- Source: `struct LayoutBox` in layout.rs. -/
inductive LayoutBox where
  | mk (dimensions : Dimensions) (box_type : BoxType) (children : List LayoutBox)
deriving Repr

def LayoutBox.dimensions : LayoutBox → Dimensions
  | .mk d _ _ => d

def LayoutBox.box_type : LayoutBox → BoxType
  | .mk _ t _ => t

def LayoutBox.children : LayoutBox → List LayoutBox
  | .mk _ _ c => c

/-- Source: `LayoutBox::new`: default (all-zero) dimensions, no children. -/
def LayoutBox.new (box_type : BoxType) : LayoutBox := .mk Dimensions.zero box_type []

def LayoutBox.isAnonymous (b : LayoutBox) : Bool :=
  match b.box_type with
  | .AnonymousBlock => true
  | _ => false

/-- Append a new child at the end of a box's child list. -/
def LayoutBox.pushChild (b : LayoutBox) (c : LayoutBox) : LayoutBox :=
  match b with
  | .mk d t cs => .mk d t (cs ++ [c])

/-- Push `c` into the children of the last box of the list. -/
def pushIntoLast (cs : List LayoutBox) (c : LayoutBox) : List LayoutBox :=
  match cs with
  | [] => []
  | [x] => [x.pushChild c]
  | x :: rest => x :: pushIntoLast rest c

/-- Source: `LayoutBox::get_inline_container` in layout.rs, fused with the
subsequent push: an Inline or Anonymous box is its own inline container; a
Block box reuses a trailing Anonymous child or appends a fresh one. -/
def LayoutBox.pushInline (b : LayoutBox) (c : LayoutBox) : LayoutBox :=
  match b.box_type with
  | .InlineNode _ | .AnonymousBlock => b.pushChild c
  | .BlockNode _ =>
    let cs :=
      if (b.children.getLast?).any LayoutBox.isAnonymous then b.children
      else b.children ++ [LayoutBox.new .AnonymousBlock]
    .mk b.dimensions b.box_type (pushIntoLast cs c)

mutual

/-- Source: `build_layout_tree` in layout.rs, for a styled node whose display
is not None (the `Display::None => panic!` arm is excluded by the wrapper and
never reached through the recursion, which skips display-None children). -/
def buildBox : StyledNode → LayoutBox
  | .mk n sv children =>
    let s : StyledNode := .mk n sv children
    let rootType : BoxType :=
      match s.display with
      | .Block => .BlockNode s
      | _ => .InlineNode s
    buildChildren (LayoutBox.new rootType) children

/-- The child loop of `build_layout_tree`. -/
def buildChildren (root : LayoutBox) : List StyledNode → LayoutBox
  | [] => root
  | child :: rest =>
    let root' :=
      match child.display with
      | .Block => root.pushChild (buildBox child)
      | .Inline => root.pushInline (buildBox child)
      | .None => root
    buildChildren root' rest

end

/-- Source: `build_layout_tree` in layout.rs; the `panic!` on a display-None
root is modelled as `none`. -/
def build_layout_tree (style_node : StyledNode) : Option LayoutBox :=
  match style_node.display with
  | .None => none
  | _ => some (buildBox style_node)

/-- Source: `LayoutBox::calculate_block_width` in layout.rs (CSS 2.1 §10.3.3
simplified). -/
def calculate_block_width (style : StyledNode) (d : Dimensions) (cb : Dimensions) : Dimensions :=
  let auto := Value.Keyword "auto"
  let width := (style.value "width").getD auto
  let zero := Value.Length 0 .Px
  let margin_left := style.lookup "margin-left" "margin" zero
  let margin_right := style.lookup "margin-right" "margin" zero
  let border_left := style.lookup "border-left-width" "border-width" zero
  let border_right := style.lookup "border-right-width" "border-width" zero
  let padding_left := style.lookup "padding-left" "padding" zero
  let padding_right := style.lookup "padding-right" "padding" zero
  let total := margin_left.to_px + margin_right.to_px + border_left.to_px
    + border_right.to_px + padding_left.to_px + padding_right.to_px + width.to_px
  -- `if width != auto && total > containing_block.content.width`: zero auto margins
  let margin_left := if width ≠ auto ∧ total > cb.content.width ∧ margin_left = auto
    then zero else margin_left
  let margin_right := if width ≠ auto ∧ total > cb.content.width ∧ margin_right = auto
    then zero else margin_right
  let underflow := cb.content.width - total
  -- `match (width == auto, margin_left == auto, margin_right == auto)`
  let (width, margin_left, margin_right) :=
    if width = auto then
      -- (true, _, _)
      let ml := if margin_left = auto then zero else margin_left
      let mr := if margin_right = auto then zero else margin_right
      if underflow ≥ 0 then (Value.Length underflow .Px, ml, mr)
      else (Value.Length 0 .Px, ml, Value.Length (mr.to_px + underflow) .Px)
    else if margin_left = auto then
      if margin_right = auto then
        -- (false, true, true)
        (width, Value.Length (underflow / 2) .Px, Value.Length (underflow / 2) .Px)
      else
        -- (false, true, false)
        (width, Value.Length underflow .Px, margin_right)
    else if margin_right = auto then
      -- (false, false, true)
      (width, margin_left, Value.Length underflow .Px)
    else
      -- (false, false, false)
      (width, margin_left, Value.Length (margin_right.to_px + underflow) .Px)
  { d with
      content.width := width.to_px
      padding.left := padding_left.to_px
      padding.right := padding_right.to_px
      border.left := border_left.to_px
      border.right := border_right.to_px
      margin.left := margin_left.to_px
      margin.right := margin_right.to_px }

/-- Source: `LayoutBox::calculate_inline_width` in layout.rs. -/
def calculate_inline_width (style : StyledNode) (d : Dimensions) : Dimensions :=
  let zero := Value.Length 0 .Px
  let width := (style.value "width").getD zero
  let margin_left := style.lookup "margin-left" "margin" zero
  let margin_right := style.lookup "margin-right" "margin" zero
  let border_left := style.lookup "border-left-width" "border-width" zero
  let border_right := style.lookup "border-right-width" "border-width" zero
  let padding_left := style.lookup "padding-left" "padding" zero
  let padding_right := style.lookup "padding-right" "padding" zero
  { d with
      content.width := width.to_px
      padding.left := padding_left.to_px
      padding.right := padding_right.to_px
      border.left := border_left.to_px
      border.right := border_right.to_px
      margin.left := margin_left.to_px
      margin.right := margin_right.to_px }

/-- Source: `LayoutBox::calculate_position_by_styles` in layout.rs: the
vertical edge sizes. -/
def calculate_position_by_styles (style : StyledNode) (d : Dimensions) : Dimensions :=
  let zero := Value.Length 0 .Px
  { d with
      margin.top := (style.lookup "margin-top" "margin" zero).to_px
      margin.bottom := (style.lookup "margin-bottom" "margin" zero).to_px
      border.top := (style.lookup "border-top-width" "border-width" zero).to_px
      border.bottom := (style.lookup "border-bottom-width" "border-width" zero).to_px
      padding.top := (style.lookup "padding-top" "padding" zero).to_px
      padding.bottom := (style.lookup "padding-bottom" "padding" zero).to_px }

/-- Source: `LayoutBox::calculate_block_position` in layout.rs. -/
def calculate_block_position (d : Dimensions) (cb : Dimensions) : Dimensions :=
  { d with
      content.x := cb.content.x + d.margin.left + d.border.left + d.padding.left
      content.y := cb.content.height + cb.content.y + d.margin.top + d.border.top + d.padding.top }

/-- Source: `LayoutBox::calculate_anonymous_position` in layout.rs. -/
def calculate_anonymous_position (d : Dimensions) (cb : Dimensions) : Dimensions :=
  { d with
      content.x := cb.content.x
      content.y := cb.content.height + cb.content.y }

/-- Source: `LayoutBox::calculate_inline_position` in layout.rs. -/
def calculate_inline_position (d : Dimensions) (cb : Dimensions) : Dimensions :=
  { d with
      content.x := cb.content.x + cb.content.width + d.margin.left + d.border.left + d.padding.left
      content.y := cb.content.y + d.margin.top + d.border.top + d.padding.top }

/-- Source: `LayoutBox::calculate_block_height` in layout.rs: an explicit
pixel `height` overwrites the accumulated content height. -/
def calculate_block_height (style : StyledNode) (d : Dimensions) : Dimensions :=
  match style.value "height" with
  | some (.Length h .Px) => { d with content.height := h }
  | _ => d

mutual

/-- Source: `LayoutBox::layout` in layout.rs, dispatching on the box type. -/
def layout (box : LayoutBox) (containing_block : Dimensions) : LayoutBox :=
  match box with
  | .mk d (.BlockNode sv) cs =>
    -- `layout_block`
    let d1 := calculate_block_width sv d containing_block
    let d2 := calculate_position_by_styles sv d1
    let d3 := calculate_block_position d2 containing_block
    let p := layoutBlockChildren d3 cs
    let d5 := calculate_block_height sv p.1
    .mk d5 (.BlockNode sv) p.2
  | .mk d (.InlineNode sv) cs =>
    -- `layout_inline`
    let d1 := calculate_position_by_styles sv d
    let d2 := calculate_inline_position d1 containing_block
    let d3 := calculate_inline_width sv d2
    let d4 := calculate_block_height sv d3
    let p := layoutInlineChildren d4 containing_block cs
    .mk p.1 (.InlineNode sv) p.2
  | .mk d .AnonymousBlock cs =>
    -- `layout_anonymous_block`
    let d1 := calculate_anonymous_position d containing_block
    let p := layoutInlineChildren d1 containing_block cs
    let d3 := { p.1 with content.height := containing_block.content.height }
    .mk d3 .AnonymousBlock p.2

/-- Source: `LayoutBox::layout_block_children` in layout.rs: lay out each
child against the current dimensions, then grow the content height by the
child's margin-box height. -/
def layoutBlockChildren (d : Dimensions) : List LayoutBox → Dimensions × List LayoutBox
  | [] => (d, [])
  | c :: rest =>
    let c' := layout c d
    let d' := { d with content.height := d.content.height + c'.dimensions.margin_box.height }
    let p := layoutBlockChildren d' rest
    (p.1, c' :: p.2)

/-- Source: `LayoutBox::layout_inline_children` in layout.rs: accumulate the
content width, wrapping (zero the width, advance y) on overflow of the
containing width. -/
def layoutInlineChildren (d : Dimensions) (containing_block : Dimensions) :
    List LayoutBox → Dimensions × List LayoutBox
  | [] => (d, [])
  | c :: rest =>
    let c' := layout c d
    let new_width := d.content.width + c'.dimensions.margin_box.width
    let d' :=
      if new_width > containing_block.content.width then
        { d with
            content.width := 0
            content.y := d.content.y + containing_block.content.y }
      else
        { d with content.width := new_width }
    let p := layoutInlineChildren d' containing_block rest
    (p.1, c' :: p.2)

end

/-- Source: `layout_tree` in layout.rs: reset the containing block's content
height to zero, build the box tree, lay it out. -/
def layout_tree (node : StyledNode) (containing_block : Dimensions) : Option LayoutBox :=
  let cb := { containing_block with content.height := 0 }
  (build_layout_tree node).map (fun root => layout root cb)

/-! ## Painter and rasterizer (src/painting.rs) -/

/-- Source: `enum DisplayCommand` in painting.rs. -/
inductive DisplayCommand where
  | SolidColor (c : Color) (r : Rect)
  | Text (s : String) (c : Color) (r : Rect)
deriving Repr

/-- Modelled from the spec: the accessor `style.text()` used by `render_text`
in painting.rs is not defined in src/style.rs; spec §4.4.4 step 3 says the
painter emits the text payload when the styled node is a text node. -/
def StyledNode.textPayload (s : StyledNode) : Option String :=
  match s.node.node_type with
  | .Text t => some t
  | _ => none

/-- Source: `get_text` in painting.rs. -/
def get_text (b : LayoutBox) : Option String :=
  match b.box_type with
  | .InlineNode style => style.textPayload
  | _ => none

/-- Source: `get_color` in painting.rs. -/
def get_color (b : LayoutBox) (name : String) : Option Color :=
  match b.box_type with
  | .BlockNode style => match style.value name with
    | some (.color c) => some c
    | _ => none
  | .InlineNode style => match style.value name with
    | some (.color c) => some c
    | _ => none
  | .AnonymousBlock => none

/-- Source: `render_background` in painting.rs. -/
def render_background (b : LayoutBox) : List DisplayCommand :=
  match get_color b "background" with
  | some color => [.SolidColor color b.dimensions.border_box]
  | none => []

/-- Source: `render_borders` in painting.rs: left, right, top, bottom strips. -/
def render_borders (b : LayoutBox) : List DisplayCommand :=
  match get_color b "border-color" with
  | none => []
  | some color =>
    let d := b.dimensions
    let border_box := d.border_box
    [ .SolidColor color ⟨d.border.left, border_box.height, border_box.x, border_box.y⟩
    , .SolidColor color
        ⟨d.border.right, border_box.height, border_box.x + border_box.width - d.border.right,
          border_box.y⟩
    , .SolidColor color ⟨border_box.width, d.border.top, border_box.x, border_box.y⟩
    , .SolidColor color
        ⟨border_box.width, d.border.bottom, border_box.x,
          border_box.y + border_box.height - d.border.bottom⟩ ]

/-- Source: `render_text` in painting.rs (hardcoded text color). -/
def render_text (b : LayoutBox) : List DisplayCommand :=
  match get_text b with
  | some text => [.Text text ⟨129, 45, 211, 255⟩ b.dimensions.border_box]
  | none => []

mutual

/-- Source: `render_layout_box` in painting.rs: background, borders, text,
then children in order. -/
def render_layout_box : LayoutBox → List DisplayCommand
  | .mk d t cs =>
    let b := LayoutBox.mk d t cs
    render_background b ++ render_borders b ++ render_text b ++ renderChildren cs

def renderChildren : List LayoutBox → List DisplayCommand
  | [] => []
  | c :: rest => render_layout_box c ++ renderChildren rest

end

/-- Source: `build_display_list` in painting.rs. -/
def build_display_list (layout_root : LayoutBox) : List DisplayCommand :=
  render_layout_box layout_root

/-- Source: `struct Canvas` in painting.rs. -/
structure Canvas where
  pixels : List Color
  width : ℕ
  height : ℕ
deriving Repr

/-- Opaque white, the initial pixel color. -/
def whitePixel : Color := ⟨255, 255, 255, 255⟩

/-- Source: `Canvas::new` in painting.rs. -/
def Canvas.new (width height : ℕ) : Canvas :=
  ⟨List.replicate (width * height) whitePixel, width, height⟩

/-- Rust `f32 as usize`: truncation toward zero, saturating at 0 from below
(our uses are already clamped into `[0, bound]`). -/
def qToUsize (q : ℚ) : ℕ := (⌊q⌋).toNat

/-- Rust `f32::clamp(lo, hi)` for `lo ≤ hi`. -/
def qClamp (q lo hi : ℚ) : ℚ := max lo (min q hi)

/-- The pixel-buffer indices written by one display command: the command's
rectangle clipped to the canvas bounds, then `x + y * width` for each `(x, y)`
in the clipped range (the double loop of `Canvas::paint_item`). -/
def clipIndices (width height : ℕ) (rect : Rect) : List ℕ :=
  let x0 := qToUsize (qClamp rect.x 0 width)
  let y0 := qToUsize (qClamp rect.y 0 height)
  let x1 := qToUsize (qClamp (rect.x + rect.width) 0 width)
  let y1 := qToUsize (qClamp (rect.y + rect.height) 0 height)
  (List.range' y0 (y1 - y0)).flatMap
    (fun y => (List.range' x0 (x1 - x0)).map (fun x => x + y * width))

/-- Source: `Canvas::paint_item` in painting.rs; both command shapes write the
command's color at every clipped pixel index. -/
def Canvas.paint_item (canvas : Canvas) (item : DisplayCommand) : Canvas :=
  match item with
  | .SolidColor color rect =>
    { canvas with
        pixels := (clipIndices canvas.width canvas.height rect).foldl
          (fun px i => px.set i color) canvas.pixels }
  | .Text _ color rect =>
    { canvas with
        pixels := (clipIndices canvas.width canvas.height rect).foldl
          (fun px i => px.set i color) canvas.pixels }

/-- Source: `paint` in painting.rs. -/
def paint (layout_root : LayoutBox) (bounds : Rect) : Canvas :=
  (build_display_list layout_root).foldl Canvas.paint_item
    (Canvas.new (qToUsize bounds.width) (qToUsize bounds.height))

/-! ## HTML parser (src/html.rs)

The cursor `(input, pos)` is modelled as the remaining input `List Char`;
`consume_char` pops the head, `consume_while` is takeWhile/dropWhile,
`eof` is emptiness, `start_with` is prefix testing. Panics
(`unwrap` on an empty cursor, failed `assert!`) are `none`. The recursive
element/nodes loop carries a fuel argument; fuel exhaustion is `none`, and
the top-level entry point passes more fuel than any input can consume. -/

namespace Html

/-- Tag-name characters: ASCII letters and digits (`parse_tag_name`). -/
def isTagChar (c : Char) : Bool :=
  ('a' ≤ c && c ≤ 'z') || ('A' ≤ c && c ≤ 'Z') || ('0' ≤ c && c ≤ '9')

/-- Source: `Parser::parse_tag_name`. -/
def parseTagName (input : List Char) : String × List Char :=
  (String.mk (input.takeWhile isTagChar), input.dropWhile isTagChar)

/-- Source: `Parser::parse_text`: consume everything up to the next `<`. -/
def parseText (input : List Char) : Node × List Char :=
  (Node.text (String.mk (input.takeWhile (· ≠ '<'))), input.dropWhile (· ≠ '<'))

/-- Source: `Parser::parse_comment`: consume the `<`, then everything up to
but excluding the next `<`; the payload is discarded. -/
def parseComment (input : List Char) : Option (Node × List Char) :=
  match input with
  | '<' :: rest => some (Node.comment, rest.dropWhile (· ≠ '<'))
  | _ => none

/-- The single-quote character (written by code to avoid a quoted apostrophe). -/
def singleQuote : Char := Char.ofNat 39

/-- Source: `Parser::parse_attributes_value`: a single- or double-quoted
string; the value runs to the matching quote. -/
def parseAttributesValue (input : List Char) : Option (String × List Char) :=
  match input with
  | open_quote :: r1 =>
    if open_quote = '"' || open_quote = singleQuote then
      let value := String.mk (r1.takeWhile (· ≠ open_quote))
      match r1.dropWhile (· ≠ open_quote) with
      | _ :: r2 => some (value, r2)
      | [] => none
    else none
  | [] => none

/-- Source: `Parser::parse_attr`: name, `=`, quoted value. -/
def parseAttr (input : List Char) : Option (String × String × List Char) :=
  let (name, r1) := parseTagName input
  match r1 with
  | '=' :: r2 => (parseAttributesValue r2).map (fun (v, r3) => (name, v, r3))
  | _ => none

/-- Source: `Parser::parse_attributes`: skip whitespace, stop at `>` (left
unconsumed), otherwise read one attribute; duplicates: last writer wins. -/
def parseAttributes : ℕ → AttrMap → List Char → Option (AttrMap × List Char)
  | 0, _, _ => none
  | fuel + 1, attrs, input =>
    let r := input.dropWhile Char.isWhitespace
    match r with
    | [] => none
    | '>' :: _ => some (attrs, r)
    | _ =>
      match parseAttr r with
      | some (name, value, r2) => parseAttributes fuel (alistInsert attrs name value) r2
      | none => none

mutual

/-- Source: `Parser::parse_node`: dispatch on the next character
(`<!` comment, `<` element, otherwise text). -/
def parseNode : ℕ → List Char → Option (Node × List Char)
  | 0, _ => none
  | fuel + 1, input =>
    match input with
    | [] => none
    | '<' :: rest =>
      match rest with
      | [] => none
      | '!' :: _ => parseComment input
      | _ :: _ => parseElement fuel input
    | _ :: _ => some (parseText input)

/-- Source: `Parser::parse_element`: `<`, tag name, attributes, `>`,
children, `</`, matching tag name, `>`. -/
def parseElement : ℕ → List Char → Option (Node × List Char)
  | 0, _ => none
  | fuel + 1, input =>
    match input with
    | '<' :: r1 =>
      let (tag_name, r2) := parseTagName r1
      match parseAttributes (r2.length + 1) [] r2 with
      | some (attrs, r3) =>
        match r3 with
        | '>' :: r4 =>
          match parseNodes fuel r4 with
          | some (children, r5) =>
            match r5 with
            | '<' :: '/' :: r6 =>
              let (close_name, r7) := parseTagName r6
              if close_name = tag_name then
                match r7 with
                | '>' :: r8 => some (Node.element tag_name attrs children, r8)
                | _ => none
              else none
            | _ => none
          | none => none
        | _ => none
      | none => none
    | _ => none

/-- Source: `Parser::parse_nodes`: skip whitespace; stop at end of input or
at a closing tag; otherwise parse one node and continue. -/
def parseNodes : ℕ → List Char → Option (List Node × List Char)
  | 0, _ => none
  | fuel + 1, input =>
    let r := input.dropWhile Char.isWhitespace
    match r with
    | [] => some ([], r)
    | '<' :: '/' :: _ => some ([], r)
    | _ =>
      match parseNode fuel r with
      | some (node, r2) =>
        match parseNodes fuel r2 with
        | some (nodes, r3) => some (node :: nodes, r3)
        | none => none
      | none => none

end

/-- Source: `html::parse`: parse the top-level node sequence and pop the last
node (`unwrap` panics — `none` — when the sequence is empty). -/
def parse (source : String) : Option Node :=
  match parseNodes (2 * source.length + 2) source.toList with
  | some (nodes, _) => nodes.getLast?
  | none => none

end Html

/-! ## CSS parser (src/css.rs), same cursor model as the HTML parser.
The loops of `parse_rules`, `parse_selectors`, `parse_simple_selector` and
`parse_declarations` carry fuel; `parse_simple_selector` can loop forever in
the source (an identifier of length zero makes no progress), which the model
renders as fuel exhaustion, i.e. `none`. -/

namespace Css

/-- Identifier characters: ASCII letters, digits and `-` (`parse_name`). -/
def isNameChar (c : Char) : Bool :=
  ('a' ≤ c && c ≤ 'z') || ('A' ≤ c && c ≤ 'Z') || ('0' ≤ c && c ≤ '9') || c = '-'

/-- Source: `Parser::parse_name`. -/
def parseName (input : List Char) : String × List Char :=
  (String.mk (input.takeWhile isNameChar), input.dropWhile isNameChar)

def isDigit (c : Char) : Bool := '0' ≤ c && c ≤ '9'

def isNumChar (c : Char) : Bool := isDigit c || c = '.'

def digitsToNat (l : List Char) : ℕ :=
  l.foldl (fun a c => a * 10 + (c.toNat - 48)) 0

/-- Rust `str::parse::<f32>` on a string of digits and dots, with the exact
decimal value (the f32 rounding of the source is not modelled; every length
in the verified scenarios is exactly representable). Malformed numbers
(empty, several dots, a lone dot) make `parse().unwrap()` panic: `none`. -/
def parseDecimal (s : List Char) : Option ℚ :=
  let intPart := s.takeWhile isDigit
  let rest := s.dropWhile isDigit
  match rest with
  | [] => if intPart = [] then none else some (digitsToNat intPart)
  | '.' :: frac =>
    if frac.all isDigit ∧ (intPart ≠ [] ∨ frac ≠ []) then
      some ((digitsToNat intPart : ℚ) + (digitsToNat frac : ℚ) / (10 : ℚ) ^ frac.length)
    else none
  | _ => none

/-- Source: `Parser::parse_number`: consume digits and dots, then parse. -/
def parseNumber (input : List Char) : Option (ℚ × List Char) :=
  match parseDecimal (input.takeWhile isNumChar) with
  | some q => some (q, input.dropWhile isNumChar)
  | none => none

def hexVal (c : Char) : Option ℕ :=
  if '0' ≤ c && c ≤ '9' then some (c.toNat - 48)
  else if 'a' ≤ c && c ≤ 'f' then some (c.toNat - 87)
  else if 'A' ≤ c && c ≤ 'F' then some (c.toNat - 55)
  else none

/-- Source: `Parser::parse_hex_pair`: two hexadecimal characters. -/
def parseHexPair (input : List Char) : Option (ℕ × List Char) :=
  match input with
  | c1 :: c2 :: rest =>
    match hexVal c1, hexVal c2 with
    | some h1, some h2 => some (16 * h1 + h2, rest)
    | _, _ => none
  | _ => none

/-- Source: `Parser::parse_color`: three hex pairs, alpha 255. -/
def parseColor (input : List Char) : Option (Color × List Char) := do
  let (r, i1) ← parseHexPair input
  let (g, i2) ← parseHexPair i1
  let (b, i3) ← parseHexPair i2
  some (⟨r, g, b, 255⟩, i3)

/-- Source: `Parser::parse_value`: a leading digit starts a pixel length (the
characters after the number, up to `;`, are consumed and ignored), `#` starts
a color, anything else is a keyword. -/
def parseValue (input : List Char) : Option (Value × List Char) :=
  match input with
  | [] => none
  | c :: rest =>
    if isDigit c then
      match parseNumber input with
      | some (length, r1) => some (.Length length .Px, r1.dropWhile (· ≠ ';'))
      | none => none
    else if c = '#' then
      (parseColor rest).map (fun (col, r1) => (Value.color col, r1))
    else
      let (name, r1) := parseName input
      some (.Keyword name, r1)

/-- Source: `Parser::parse_declaration`: `name : value`. -/
def parseDeclaration (input : List Char) : Option (Declaration × List Char) :=
  let (name, r1) := parseName input
  match r1 with
  | ':' :: r2 =>
    (parseValue (r2.dropWhile Char.isWhitespace)).map
      (fun (value, r3) => ({ name := name, value := value }, r3))
  | _ => none

/-- Source: the loop of `Parser::parse_declarations` (after the opening `{`):
skip whitespace, stop at `}`, otherwise one declaration followed by `;`. -/
def parseDeclarationsLoop : ℕ → List Declaration → List Char →
    Option (List Declaration × List Char)
  | 0, _, _ => none
  | fuel + 1, acc, input =>
    let r := input.dropWhile Char.isWhitespace
    match r with
    | [] => none
    | '}' :: r1 => some (acc, r1)
    | _ =>
      match parseDeclaration r with
      | some (decl, r1) =>
        match r1 with
        | ';' :: r2 => parseDeclarationsLoop fuel (acc ++ [decl]) r2
        | _ => none
      | none => none

/-- Source: `Parser::parse_declarations`: `{`, the declaration loop, `}`. -/
def parseDeclarations (fuel : ℕ) (input : List Char) :
    Option (List Declaration × List Char) :=
  match input with
  | '{' :: r1 => parseDeclarationsLoop fuel [] r1
  | _ => none

/-- Source: the loop of `Parser::parse_simple_selector`: at each step skip
whitespace, then `#id`, `.class`, stop at `,`/`{`/EOF, or a tag name. -/
def parseSimpleSelectorLoop : ℕ → SimpleSelector → List Char →
    Option (SimpleSelector × List Char)
  | 0, _, _ => none
  | fuel + 1, sel, input =>
    if input = [] then some (sel, input)
    else
      let r := input.dropWhile Char.isWhitespace
      match r with
      | [] => none
      | '#' :: r1 =>
        let (name, r2) := parseName r1
        parseSimpleSelectorLoop fuel { sel with id := some name } r2
      | '.' :: r1 =>
        let (name, r2) := parseName r1
        parseSimpleSelectorLoop fuel { sel with cls := sel.cls ++ [name] } r2
      | ',' :: _ => some (sel, r)
      | '{' :: _ => some (sel, r)
      | _ =>
        let (name, r2) := parseName r
        parseSimpleSelectorLoop fuel { sel with tag_name := some name } r2

/-- Source: `Parser::parse_simple_selector`. -/
def parseSimpleSelector (fuel : ℕ) (input : List Char) :
    Option (SimpleSelector × List Char) :=
  parseSimpleSelectorLoop fuel ⟨none, none, []⟩ input

/-- Source: the loop of `Parser::parse_selectors`: selectors separated by
`,`, terminated by `{` (left unconsumed). -/
def parseSelectorsLoop : ℕ → List Selector → List Char →
    Option (List Selector × List Char)
  | 0, _, _ => none
  | fuel + 1, acc, input =>
    match parseSimpleSelector (input.length + 1) input with
    | some (simple, r1) =>
      let r := r1.dropWhile Char.isWhitespace
      match r with
      | ',' :: r2 => parseSelectorsLoop fuel (acc ++ [.Simple simple]) (r2.dropWhile Char.isWhitespace)
      | '{' :: _ => some (acc ++ [.Simple simple], r)
      | _ => none
    | none => none

/-- Source: `Parser::parse_selectors`. -/
def parseSelectors (fuel : ℕ) (input : List Char) : Option (List Selector × List Char) :=
  parseSelectorsLoop fuel [] input

/-- Source: `Parser::parse_rule`: selector list then declaration block. -/
def parseRule (fuel : ℕ) (input : List Char) : Option (Rule × List Char) := do
  let (selectors, r1) ← parseSelectors fuel input
  let (declarations, r2) ← parseDeclarations fuel r1
  some ({ selectors := selectors, declarations := declarations }, r2)

/-- Source: the loop of `Parser::parse_rules`: skip whitespace, stop at end
of input, otherwise one rule per iteration. -/
def parseRules : ℕ → List Rule → List Char → Option (List Rule × List Char)
  | 0, _, _ => none
  | fuel + 1, acc, input =>
    let r := input.dropWhile Char.isWhitespace
    match r with
    | [] => some (acc, r)
    | _ =>
      match parseRule (r.length + 1) r with
      | some (rule, r1) => parseRules fuel (acc ++ [rule]) r1
      | none => none

/-- Source: `css::parse`. -/
def parse (source : String) : Option StyleSheet :=
  match parseRules (source.length + 1) [] source.toList with
  | some (rules, _) => some { rules := rules }
  | none => none

end Css

/-! ## Claim C1: scenario S1 (single element centering) -/

/-- The 800×600 viewport of the scenarios. -/
def viewport800 : Dimensions :=
  { Dimensions.zero with content := { width := 800, height := 600, x := 0, y := 0 } }

/-- The full pipeline of the engine on an HTML source and a CSS source:
parse both, style the DOM, lay out against the 800×600 viewport. -/
def pipeline (htmlSource cssSource : String) : Option LayoutBox := do
  let root ← Html.parse htmlSource
  let sheet ← Css.parse cssSource
  let styled ← style_tree root sheet
  layout_tree styled viewport800

/-- The dimension fields scenario S1 speaks about: content.width,
margin.left, margin.right, content.x, content.y, content.height. -/
def s1Fields (b : LayoutBox) : ℚ × ℚ × ℚ × ℚ × ℚ × ℚ :=
  (b.dimensions.content.width, b.dimensions.margin.left, b.dimensions.margin.right,
   b.dimensions.content.x, b.dimensions.content.y, b.dimensions.content.height)

/-- The styled tree the pipeline computes for scenario S1 as claimed. -/
def s1Styled : StyledNode :=
  .mk (Node.element "h1" [] [])
    [("width", .Length 100 .Px), ("margin", .Keyword "auto")] []

/-- The styled tree for scenario S1 with `display: block` added. -/
def s1StyledBlock : StyledNode :=
  .mk (Node.element "h1" [] [])
    [("display", .Keyword "block"), ("width", .Length 100 .Px), ("margin", .Keyword "auto")] []

/-- C1 counterexample: with the sources exactly as claimed, the `h1` has no
`display` property, so the root box is laid out as an inline box: the auto
margins stay 0 (not 350) and content.x is 800 (not 350). -/
theorem c1_counterexample :
    (pipeline "<h1></h1>" "h1 { width: 100px; margin: auto; }").map s1Fields
      = some (100, 0, 0, 800, 0, 0)
    ∧ (pipeline "<h1></h1>" "h1 { width: 100px; margin: auto; }").map s1Fields
      ≠ some (100, 350, 350, 350, 0, 0) := by
  have h : (pipeline "<h1></h1>" "h1 { width: 100px; margin: auto; }").map s1Fields
      = (layout_tree s1Styled viewport800).map s1Fields := rfl
  have h2 : (layout_tree s1Styled viewport800).map s1Fields = some (100, 0, 0, 800, 0, 0) := by
    norm_num +decide [layout_tree, build_layout_tree, buildBox, buildChildren, layout,
      calculate_position_by_styles, calculate_inline_position, calculate_inline_width,
      calculate_block_height, layoutInlineChildren, s1Styled, viewport800, s1Fields,
      StyledNode.display, StyledNode.value, StyledNode.lookup, propGet, Value.to_px,
      StyledNode.specified_values, LayoutBox.new, Dimensions.zero, Rect.zero, EdgeSizes.zero,
      LayoutBox.dimensions, List.find?, Option.map, Option.getD, Option.bind]
  rw [h, h2]
  exact ⟨rfl, by decide⟩

/-- C1 (amended): with `display: block` added to the rule — so that the root
is laid out by the block algorithm the claim describes — the root layout box
has content.width = 100, margin.left = margin.right = 350, content.x = 350,
content.y = 0 and content.height = 0. -/
theorem c1_centering_with_display_block :
    (pipeline "<h1></h1>" "h1 { display: block; width: 100px; margin: auto; }").map s1Fields
      = some (100, 350, 350, 350, 0, 0) := by
  have h : (pipeline "<h1></h1>" "h1 { display: block; width: 100px; margin: auto; }").map s1Fields
      = (layout_tree s1StyledBlock viewport800).map s1Fields := rfl
  rw [h]
  norm_num +decide [layout_tree, build_layout_tree, buildBox, buildChildren, layout,
    calculate_block_width, calculate_position_by_styles, calculate_block_position,
    calculate_block_height, layoutBlockChildren, s1StyledBlock, viewport800, s1Fields,
    StyledNode.display, StyledNode.value, StyledNode.lookup, propGet, Value.to_px,
    StyledNode.specified_values, LayoutBox.new, Dimensions.zero, Rect.zero, EdgeSizes.zero,
    LayoutBox.dimensions, List.find?, Option.map, Option.getD, Option.bind]

/-! ## Claim C2: the display kind of a styled node -/

/-- The display mapping as the amended claim states it: keyword "block" →
Block, keyword "inline" → Inline, any other keyword (including "none") →
None, and a non-keyword value or an absent property → Inline. -/
def displayKindSpec : Option Value → Display
  | some (.Keyword k) =>
    if k = "block" then .Block
    else if k = "inline" then .Inline
    else .None
  | _ => .Inline

/-- C2 counterexample: a node whose `display` property is the keyword "flex"
(a keyword other than block/inline/none) gets display kind None, not Inline
as the claim states. -/
theorem c2_counterexample :
    (StyledNode.mk (.mk (.Element ⟨"p", []⟩) []) [("display", .Keyword "flex")] []).display
        = Display.None
    ∧ (StyledNode.mk (.mk (.Element ⟨"p", []⟩) []) [("display", .Keyword "flex")] []).display
        ≠ Display.Inline := by
  constructor
  · decide
  · decide

/-- C2 (amended): for every styled node the display kind derived from the
`display` property is Block for keyword "block", Inline for keyword
"inline", None for every other keyword (including "none"), and Inline for a
non-keyword value or an absent property. -/
theorem c2_display_kind (s : StyledNode) : s.display = displayKindSpec (s.value "display") := by
  unfold StyledNode.display displayKindSpec
  cases s.value "display" with
  | none => rfl
  | some v =>
    cases v with
    | Keyword k =>
      by_cases hb : k = "block"
      · simp [hb]
      · by_cases hi : k = "inline" <;> simp [hb, hi]
    | Length f u => rfl
    | color c => rfl

/-! ## Claim C3: style_tree on text and comment nodes -/

/-- C3: evaluating the code at the failing input. `style_tree` on a text
node succeeds with an empty property map, but on a comment node it hits the
`todo!()` arm and panics (`none`) — reachable from the HTML source
`<div><!-- x --></div>`, whose parse yields a div with a comment child. -/
theorem c3_comment_todo_panics :
    style_tree (Node.text "a") ⟨[]⟩ = some (.mk (Node.text "a") [] [])
    ∧ style_tree Node.comment ⟨[]⟩ = none
    ∧ (Html.parse "<div><!-- x --></div>").isSome
    ∧ ((Html.parse "<div><!-- x --></div>").bind (fun n => style_tree n ⟨[]⟩)) = none := by
  exact ⟨rfl, rfl, rfl, rfl⟩

/-! ## Claim C5: block width conservation -/

/-- C5: for any styled node whose `width` property is a pixel length (not
auto), and any containing block, the horizontal edges and content width
computed by `calculate_block_width` sum exactly to the containing block's
content width — including the overflow case, where margin.right absorbs a
negative underflow. -/
theorem c5_block_width_conservation (style : StyledNode) (d cb : Dimensions) (w : ℚ)
    (hw : style.value "width" = some (.Length w .Px)) :
    (calculate_block_width style d cb).margin.left
      + (calculate_block_width style d cb).border.left
      + (calculate_block_width style d cb).padding.left
      + (calculate_block_width style d cb).content.width
      + (calculate_block_width style d cb).padding.right
      + (calculate_block_width style d cb).border.right
      + (calculate_block_width style d cb).margin.right
      = cb.content.width := by
  simp only [calculate_block_width, hw, Option.getD_some]
  split_ifs <;> simp_all [Value.to_px] <;> ring_nf

/-- C5 witness: scenario S4 — `width: 900px` in an 800-wide containing
block; the sum of edges and width is still 800, margin.right having absorbed
the −100 underflow. -/
theorem c5_block_width_conservation_witness :
    (calculate_block_width
        (StyledNode.mk (Node.element "body" [] []) [("width", .Length 900 .Px)] [])
        Dimensions.zero viewport800).margin.left
      + (calculate_block_width
          (StyledNode.mk (Node.element "body" [] []) [("width", .Length 900 .Px)] [])
          Dimensions.zero viewport800).border.left
      + (calculate_block_width
          (StyledNode.mk (Node.element "body" [] []) [("width", .Length 900 .Px)] [])
          Dimensions.zero viewport800).padding.left
      + (calculate_block_width
          (StyledNode.mk (Node.element "body" [] []) [("width", .Length 900 .Px)] [])
          Dimensions.zero viewport800).content.width
      + (calculate_block_width
          (StyledNode.mk (Node.element "body" [] []) [("width", .Length 900 .Px)] [])
          Dimensions.zero viewport800).padding.right
      + (calculate_block_width
          (StyledNode.mk (Node.element "body" [] []) [("width", .Length 900 .Px)] [])
          Dimensions.zero viewport800).border.right
      + (calculate_block_width
          (StyledNode.mk (Node.element "body" [] []) [("width", .Length 900 .Px)] [])
          Dimensions.zero viewport800).margin.right
      = viewport800.content.width :=
  c5_block_width_conservation
    (StyledNode.mk (Node.element "body" [] []) [("width", .Length 900 .Px)] [])
    Dimensions.zero viewport800 900 rfl

/-! ## Claim C4: the cascade — matching, specificity order, stability, fold -/

theorem specLE_refl (a : Specificity) : specLE a a = true := by
  rcases a with ⟨a1, a2, a3⟩
  simp [specLE]

theorem specLE_total (a b : Specificity) : specLE a b = true ∨ specLE b a = true := by
  rcases a with ⟨a1, a2, a3⟩
  rcases b with ⟨b1, b2, b3⟩
  simp [specLE]
  omega

theorem specLE_trans {a b c : Specificity} (h1 : specLE a b = true) (h2 : specLE b c = true) :
    specLE a c = true := by
  rcases a with ⟨a1, a2, a3⟩
  rcases b with ⟨b1, b2, b3⟩
  rcases c with ⟨c1, c2, c3⟩
  simp [specLE] at *
  omega

/-- Membership in an insertion. -/
theorem mem_insortRule (x z : MatchedRule) (l : List MatchedRule) :
    z ∈ insortRule x l ↔ z = x ∨ z ∈ l := by
  induction l with
  | nil => simp [insortRule]
  | cons y ys ih =>
    unfold insortRule
    by_cases hcmp : specLE y.1 x.1 = true
    · rw [if_pos hcmp]
      simp only [List.mem_cons, ih]
      tauto
    · rw [if_neg hcmp]
      simp only [List.mem_cons]

/-- Inserting into a pairwise-ordered list keeps it pairwise ordered. -/
theorem pairwise_insortRule (x : MatchedRule) (l : List MatchedRule)
    (h : l.Pairwise (fun a b => specLE a.1 b.1 = true)) :
    (insortRule x l).Pairwise (fun a b => specLE a.1 b.1 = true) := by
  induction l with
  | nil => simp [insortRule]
  | cons y ys ih =>
    rcases List.pairwise_cons.mp h with ⟨hy, hys⟩
    unfold insortRule
    by_cases hcmp : specLE y.1 x.1 = true
    · rw [if_pos hcmp]
      refine List.pairwise_cons.mpr ⟨?_, ih hys⟩
      intro z hz
      rcases (mem_insortRule x z ys).mp hz with rfl | hz'
      · exact hcmp
      · exact hy z hz'
    · rw [if_neg hcmp]
      refine List.pairwise_cons.mpr ⟨?_, h⟩
      intro z hz
      have hxy : specLE x.1 y.1 = true :=
        (specLE_total x.1 y.1).resolve_right (by simpa using hcmp)
      rcases List.mem_cons.mp hz with rfl | hz'
      · exact hxy
      · exact specLE_trans hxy (hy z hz')

/-- Inserting an element with a different specificity does not change the
filter at a given specificity. -/
theorem filter_insortRule_ne (x : MatchedRule) (l : List MatchedRule) (s : Specificity)
    (hx : x.1 ≠ s) :
    (insortRule x l).filter (fun mr => decide (mr.1 = s))
      = l.filter (fun mr => decide (mr.1 = s)) := by
  induction l with
  | nil => simp [insortRule, hx]
  | cons y ys ih =>
    by_cases hcmp : specLE y.1 x.1 = true
    · simp only [insortRule, hcmp, if_pos, List.filter_cons]
      rw [ih]
    · simp only [insortRule, hcmp, if_neg, not_false_iff, List.filter_cons]
      simp [hx, List.filter_cons]

/-- Inserting an element with specificity `s` into a pairwise-ordered list
appends it to the filter at `s`: stability of the insertion sort. -/
theorem filter_insortRule_eq (x : MatchedRule) (l : List MatchedRule) (s : Specificity)
    (hp : l.Pairwise (fun a b => specLE a.1 b.1 = true)) (hx : x.1 = s) :
    (insortRule x l).filter (fun mr => decide (mr.1 = s))
      = l.filter (fun mr => decide (mr.1 = s)) ++ [x] := by
  induction l with
  | nil => simp [insortRule, hx]
  | cons y ys ih =>
    rcases List.pairwise_cons.mp hp with ⟨hy, hys⟩
    by_cases hcmp : specLE y.1 x.1 = true
    · simp only [insortRule, hcmp, if_pos, List.filter_cons]
      rw [ih hys]
      by_cases hykey : y.1 = s <;> simp [hykey]
    · -- x goes in front; nothing with key s can already be in y :: ys
      have hxle : specLE x.1 y.1 = true := (specLE_total x.1 y.1).resolve_right (by simpa using hcmp)
      have hynot : y.1 ≠ s := by
        intro hkey
        exact hcmp (by rw [hkey, ← hx]; exact specLE_refl x.1)
      have hznot : ∀ z ∈ ys, z.1 ≠ s := by
        intro z hz hkey
        rw [← hx] at hkey
        have hyz := hy z hz
        rw [hkey] at hyz
        exact hcmp hyz
      simp only [insortRule, hcmp, if_neg, not_false_iff, List.filter_cons]
      have hfilter : (ys.filter (fun mr => decide (mr.1 = s))) = [] := by
        rw [List.filter_eq_nil_iff]
        intro z hz
        simpa using hznot z hz
      simp [hx, hynot, hfilter]

/-- The fold of the stable insertion sort: the accumulator's invariant. -/
theorem sortRules_foldl_invariant (l : List MatchedRule) :
    ∀ acc, acc.Pairwise (fun a b => specLE a.1 b.1 = true) →
      (l.foldl (fun a x => insortRule x a) acc).Pairwise (fun a b => specLE a.1 b.1 = true)
      ∧ ∀ s : Specificity,
          (l.foldl (fun a x => insortRule x a) acc).filter (fun mr => decide (mr.1 = s))
            = acc.filter (fun mr => decide (mr.1 = s))
              ++ l.filter (fun mr => decide (mr.1 = s)) := by
  induction l with
  | nil => intro acc hacc; simpa using hacc
  | cons x xs ih =>
    intro acc hacc
    have hinsert := pairwise_insortRule x acc hacc
    rcases ih (insortRule x acc) hinsert with ⟨hpair, hfilter⟩
    refine ⟨hpair, ?_⟩
    intro s
    rw [List.foldl_cons] at *
    rw [hfilter s, List.filter_cons]
    by_cases hx : x.1 = s
    · rw [filter_insortRule_eq x acc s hacc hx]
      simp [hx]
    · rw [filter_insortRule_ne x acc s hx]
      simp [hx]

/-- A successful `find?` returns the first element satisfying the predicate:
it is in the list, it satisfies the predicate, and everything before it does
not. -/
theorem find?_first_index {α : Type} (p : α → Bool) (l : List α) (a : α)
    (h : l.find? p = some a) :
    ∃ i, ∃ hi : i < l.length,
      l.get ⟨i, hi⟩ = a ∧ p a = true ∧ ∀ b ∈ l.take i, p b = false := by
  induction l with
  | nil => simp [List.find?] at h
  | cons x xs ih =>
    by_cases hx : p x = true
    · rw [List.find?_cons_of_pos _ hx] at h
      have hxa : x = a := Option.some.inj h
      subst hxa
      exact ⟨0, by simp, rfl, hx, by simp⟩
    · rw [List.find?_cons_of_neg _ (by simpa using hx)] at h
      rcases ih h with ⟨i, hi, hget, hp, hbefore⟩
      refine ⟨i + 1, by simpa using Nat.succ_lt_succ hi, by simpa using hget, hp, ?_⟩
      intro b hb
      rcases (List.mem_cons).mp (by simpa using hb) with rfl | hb'
      · simpa using hx
      · exact hbefore b hb'

/-- Nested per-rule declaration folds equal one fold over the flattened
declaration list. -/
theorem foldl_rules_flatMap (rules : List MatchedRule) (init : PropertyMap) :
    rules.foldl
        (fun values mr =>
          mr.2.declarations.foldl
            (fun values decl => propInsert values decl.name decl.value) values) init
      = (rules.flatMap (fun mr => mr.2.declarations)).foldl
          (fun values decl => propInsert values decl.name decl.value) init := by
  induction rules generalizing init with
  | nil => rfl
  | cons r rs ih =>
    rw [List.foldl_cons, List.flatMap_cons, List.foldl_append]
    exact ih _

/-- C4: for every stylesheet and element, (i) each matched rule is paired
with the specificity of the first selector of the rule that matches the
element; (ii) the resolver order (stable ascending sort) yields specificities
in non-decreasing order; (iii) equal-specificity rules keep stylesheet order
(the filter at each specificity is unchanged by the sort); (iv) the final
property map is the last-writer-wins fold of the declarations in that order. -/
theorem c4_cascade (elem : ElementData) (sheet : StyleSheet) (sp : Specificity) (r : Rule)
    (hmem : (sp, r) ∈ match_rules elem sheet) :
    (∃ i, ∃ hi : i < r.selectors.length,
        matches' elem (r.selectors.get ⟨i, hi⟩) = true
        ∧ sp = (r.selectors.get ⟨i, hi⟩).specificity
        ∧ ∀ sel ∈ r.selectors.take i, matches' elem sel = false)
    ∧ List.Chain' (fun a b => specLE a.1 b.1 = true) (sortRules (match_rules elem sheet))
    ∧ (∀ s : Specificity,
        (sortRules (match_rules elem sheet)).filter (fun mr => decide (mr.1 = s))
          = (match_rules elem sheet).filter (fun mr => decide (mr.1 = s)))
    ∧ specified_values elem sheet
        = ((sortRules (match_rules elem sheet)).flatMap (fun mr => mr.2.declarations)).foldl
            (fun values decl => propInsert values decl.name decl.value) [] := by
  rcases sortRules_foldl_invariant (match_rules elem sheet) [] (by simp) with ⟨hpair, hfilter⟩
  refine ⟨?_, ?_, ?_, ?_⟩
  · -- (i) pairing with the first matching selector
    rcases List.mem_filterMap.mp hmem with ⟨rule, _, hrule⟩
    rcases hfind : rule.selectors.find? (matches' elem) with _ | sel
    · simp [match_rule, hfind] at hrule
    · simp only [match_rule, hfind, Option.map_some', Option.some.injEq, Prod.mk.injEq] at hrule
      rcases hrule with ⟨hsp, hr⟩
      subst hr
      rcases find?_first_index (matches' elem) rule.selectors sel hfind with
        ⟨i, hi, hget, hp, hbefore⟩
      exact ⟨i, hi, by rw [hget]; exact hp, by rw [hget]; exact hsp.symm, hbefore⟩
  · exact hpair.chain'
  · intro s; simpa using hfilter s
  · unfold specified_values sortRules
    exact foldl_rules_flatMap _ []

/-- C4 witness: scenario S3 — `#x` (id) vs `h1` (tag) on `<h1 id="x">`; both
rules match, the id rule with specificity (1,0,0), and the cascade
conclusion holds at this concrete input. -/
theorem c4_cascade_witness :
    ((1, 0, 0),
        Rule.mk [.Simple ⟨none, some "x", []⟩] [⟨"width", .Length 10 .Px⟩])
      ∈ match_rules ⟨"h1", [("id", "x")]⟩
        ⟨[Rule.mk [.Simple ⟨none, some "x", []⟩] [⟨"width", .Length 10 .Px⟩],
          Rule.mk [.Simple ⟨some "h1", none, []⟩] [⟨"width", .Length 50 .Px⟩]]⟩
    ∧ ((∃ i, ∃ hi : i < ([Selector.Simple ⟨none, some "x", []⟩] : List Selector).length,
        matches' ⟨"h1", [("id", "x")]⟩
            (([Selector.Simple ⟨none, some "x", []⟩] : List Selector).get ⟨i, hi⟩) = true
        ∧ ((1, 0, 0) : Specificity)
            = (([Selector.Simple ⟨none, some "x", []⟩] : List Selector).get ⟨i, hi⟩).specificity
        ∧ ∀ sel ∈ ([Selector.Simple ⟨none, some "x", []⟩] : List Selector).take i,
            matches' ⟨"h1", [("id", "x")]⟩ sel = false)
      ∧ List.Chain' (fun a b => specLE a.1 b.1 = true)
          (sortRules (match_rules ⟨"h1", [("id", "x")]⟩
            ⟨[Rule.mk [.Simple ⟨none, some "x", []⟩] [⟨"width", .Length 10 .Px⟩],
              Rule.mk [.Simple ⟨some "h1", none, []⟩] [⟨"width", .Length 50 .Px⟩]]⟩))
      ∧ (∀ s : Specificity,
          (sortRules (match_rules ⟨"h1", [("id", "x")]⟩
            ⟨[Rule.mk [.Simple ⟨none, some "x", []⟩] [⟨"width", .Length 10 .Px⟩],
              Rule.mk [.Simple ⟨some "h1", none, []⟩] [⟨"width", .Length 50 .Px⟩]]⟩)).filter
                (fun mr => decide (mr.1 = s))
            = (match_rules ⟨"h1", [("id", "x")]⟩
                ⟨[Rule.mk [.Simple ⟨none, some "x", []⟩] [⟨"width", .Length 10 .Px⟩],
                  Rule.mk [.Simple ⟨some "h1", none, []⟩] [⟨"width", .Length 50 .Px⟩]]⟩).filter
                (fun mr => decide (mr.1 = s)))
      ∧ specified_values ⟨"h1", [("id", "x")]⟩
            ⟨[Rule.mk [.Simple ⟨none, some "x", []⟩] [⟨"width", .Length 10 .Px⟩],
              Rule.mk [.Simple ⟨some "h1", none, []⟩] [⟨"width", .Length 50 .Px⟩]]⟩
          = ((sortRules (match_rules ⟨"h1", [("id", "x")]⟩
                ⟨[Rule.mk [.Simple ⟨none, some "x", []⟩] [⟨"width", .Length 10 .Px⟩],
                  Rule.mk [.Simple ⟨some "h1", none, []⟩] [⟨"width", .Length 50 .Px⟩]]⟩)).flatMap
                (fun mr => mr.2.declarations)).foldl
              (fun values decl => propInsert values decl.name decl.value) []) :=
  ⟨by decide,
    c4_cascade ⟨"h1", [("id", "x")]⟩
      ⟨[Rule.mk [.Simple ⟨none, some "x", []⟩] [⟨"width", .Length 10 .Px⟩],
        Rule.mk [.Simple ⟨some "h1", none, []⟩] [⟨"width", .Length 50 .Px⟩]]⟩
      (1, 0, 0)
      (Rule.mk [.Simple ⟨none, some "x", []⟩] [⟨"width", .Length 10 .Px⟩])
      (by decide)⟩

/-! ## Claim C6: vertical stacking of block children -/

/-- All property values of a styled node convert to non-negative pixel
amounts. The CSS parser cannot produce negative lengths (a value starting
with `-` parses as a keyword, and keywords convert to 0), so every styled
tree of the pipeline satisfies this. -/
def nonnegProps (sv : StyledNode) : Prop :=
  ∀ p ∈ sv.specified_values, (0 : ℚ) ≤ Value.to_px p.2

/-- The bottom of a box's margin box. -/
def marginBoxBottom (c : LayoutBox) : ℚ :=
  c.dimensions.margin_box.y + c.dimensions.margin_box.height

/-- A block box as `build_layout_tree` produces it, with non-negative style
lengths. -/
def blockWithNonnegStyles (c : LayoutBox) : Prop :=
  ∃ sv d0 gcs, c = LayoutBox.mk d0 (.BlockNode sv) gcs ∧ nonnegProps sv

theorem lookup_nonneg (sv : StyledNode) (h : nonnegProps sv) (n f : String) :
    (0 : ℚ) ≤ (sv.lookup n f (Value.Length 0 .Px)).to_px := by
  unfold StyledNode.lookup
  rcases hv : sv.value n with _ | v
  · rcases hw : sv.value f with _ | w
    · simp [Value.to_px]
    · simp only [Option.getD_none, Option.getD_some]
      unfold StyledNode.value propGet at hw
      rcases hfind : sv.specified_values.find? (fun p => p.1 = f) with _ | p
      · rw [hfind] at hw; simp at hw
      · rw [hfind] at hw
        simp only [Option.map_some', Option.some.injEq] at hw
        subst hw
        exact h p (List.mem_of_find?_eq_some hfind)
  · simp only [Option.getD_some]
    unfold StyledNode.value propGet at hv
    rcases hfind : sv.specified_values.find? (fun p => p.1 = n) with _ | p
    · rw [hfind] at hv; simp at hv
    · rw [hfind] at hv
      simp only [Option.map_some', Option.some.injEq] at hv
      subst hv
      exact h p (List.mem_of_find?_eq_some hfind)

/-- `calculate_block_height` touches only content.height. -/
theorem calculate_block_height_fields (sv : StyledNode) (x : Dimensions) :
    (calculate_block_height sv x).margin = x.margin
    ∧ (calculate_block_height sv x).border = x.border
    ∧ (calculate_block_height sv x).padding = x.padding
    ∧ (calculate_block_height sv x).content.x = x.content.x
    ∧ (calculate_block_height sv x).content.y = x.content.y
    ∧ (calculate_block_height sv x).content.width = x.content.width := by
  unfold calculate_block_height
  split <;> simp

/-- Without an explicit pixel height, `calculate_block_height` is the
identity. -/
theorem calculate_block_height_id (sv : StyledNode) (x : Dimensions)
    (h : ∀ q : ℚ, sv.value "height" ≠ some (.Length q .Px)) :
    calculate_block_height sv x = x := by
  unfold calculate_block_height
  split
  · next q heq => exact absurd heq (h q)
  · rfl

/-- The child-layout fold changes only content.height (and the children). -/
theorem layoutBlockChildren_fst_fields (cs : List LayoutBox) :
    ∀ d : Dimensions,
      (layoutBlockChildren d cs).1.content.x = d.content.x
      ∧ (layoutBlockChildren d cs).1.content.y = d.content.y
      ∧ (layoutBlockChildren d cs).1.content.width = d.content.width
      ∧ (layoutBlockChildren d cs).1.margin = d.margin
      ∧ (layoutBlockChildren d cs).1.border = d.border
      ∧ (layoutBlockChildren d cs).1.padding = d.padding := by
  induction cs with
  | nil => intro d; simp [layoutBlockChildren]
  | cons c rest ih =>
    intro d
    simp only [layoutBlockChildren]
    exact ih _

/-- The child-layout fold grows content.height by the margin-box heights of
the laid-out children. -/
theorem layoutBlockChildren_fst_height (cs : List LayoutBox) :
    ∀ d : Dimensions,
      (layoutBlockChildren d cs).1.content.height
        = d.content.height
          + ((layoutBlockChildren d cs).2.map (fun c => c.dimensions.margin_box.height)).sum := by
  induction cs with
  | nil => intro d; simp [layoutBlockChildren]
  | cons c rest ih =>
    intro d
    simp only [layoutBlockChildren, List.map_cons, List.sum_cons]
    rw [ih]
    simp only []
    ring

/-- Laying out a block box sets its top/bottom edges from the style lookups
and its content.y from the containing block, independently of its initial
dimensions and of its children. -/
theorem layout_block_fields (sv : StyledNode) (d0 : Dimensions) (gcs : List LayoutBox)
    (d : Dimensions) :
    (layout (LayoutBox.mk d0 (.BlockNode sv) gcs) d).dimensions.content.y
        = d.content.height + d.content.y
          + (sv.lookup "margin-top" "margin" (Value.Length 0 .Px)).to_px
          + (sv.lookup "border-top-width" "border-width" (Value.Length 0 .Px)).to_px
          + (sv.lookup "padding-top" "padding" (Value.Length 0 .Px)).to_px
    ∧ (layout (LayoutBox.mk d0 (.BlockNode sv) gcs) d).dimensions.margin.top
        = (sv.lookup "margin-top" "margin" (Value.Length 0 .Px)).to_px
    ∧ (layout (LayoutBox.mk d0 (.BlockNode sv) gcs) d).dimensions.border.top
        = (sv.lookup "border-top-width" "border-width" (Value.Length 0 .Px)).to_px
    ∧ (layout (LayoutBox.mk d0 (.BlockNode sv) gcs) d).dimensions.padding.top
        = (sv.lookup "padding-top" "padding" (Value.Length 0 .Px)).to_px
    ∧ (layout (LayoutBox.mk d0 (.BlockNode sv) gcs) d).dimensions.margin.bottom
        = (sv.lookup "margin-bottom" "margin" (Value.Length 0 .Px)).to_px
    ∧ (layout (LayoutBox.mk d0 (.BlockNode sv) gcs) d).dimensions.border.bottom
        = (sv.lookup "border-bottom-width" "border-width" (Value.Length 0 .Px)).to_px
    ∧ (layout (LayoutBox.mk d0 (.BlockNode sv) gcs) d).dimensions.padding.bottom
        = (sv.lookup "padding-bottom" "padding" (Value.Length 0 .Px)).to_px := by
  simp only [layout, LayoutBox.dimensions]
  have hbh := calculate_block_height_fields sv
    (layoutBlockChildren
      (calculate_block_position (calculate_position_by_styles sv
        (calculate_block_width sv d0 d)) d) gcs).1
  have hfold := layoutBlockChildren_fst_fields gcs
    (calculate_block_position (calculate_position_by_styles sv
      (calculate_block_width sv d0 d)) d)
  rcases hbh with ⟨hm, hb, hp, _, hy, _⟩
  rcases hfold with ⟨_, hy2, _, hm2, hb2, hp2⟩
  rw [hm, hb, hp, hy, hy2, hm2, hb2, hp2]
  simp [calculate_block_position, calculate_position_by_styles]

theorem margin_box_y (d : Dimensions) :
    d.margin_box.y = d.content.y - d.padding.top - d.border.top - d.margin.top := by
  simp [Dimensions.margin_box, Dimensions.border_box, Dimensions.padding_box, Rect.expanded_by]

theorem margin_box_height (d : Dimensions) :
    d.margin_box.height
      = d.content.height + d.padding.top + d.padding.bottom + d.border.top + d.border.bottom
        + d.margin.top + d.margin.bottom := by
  simp [Dimensions.margin_box, Dimensions.border_box, Dimensions.padding_box, Rect.expanded_by]

/-- Consecutive laid-out block children stack: each child's content.y is at
least the previous child's margin-box bottom. -/
theorem layoutBlockChildren_chain (cs : List LayoutBox) :
    ∀ d : Dimensions, (∀ c ∈ cs, blockWithNonnegStyles c) →
      List.Chain' (fun a b => marginBoxBottom a ≤ b.dimensions.content.y)
        (layoutBlockChildren d cs).2 := by
  induction cs with
  | nil => intro d _; simp [layoutBlockChildren]
  | cons c rest ih =>
    intro d h
    rcases rest with _ | ⟨c2, rest2⟩
    · simp [layoutBlockChildren]
    · have htail := ih
        { d with content.height := d.content.height
            + (layout c d).dimensions.margin_box.height }
        (fun x hx => h x (List.mem_cons_of_mem _ hx))
      simp only [layoutBlockChildren] at htail ⊢
      rw [List.chain'_cons]
      refine ⟨?_, htail⟩
      obtain ⟨sv1, d01, g1, rfl, hn1⟩ := h c (by simp)
      obtain ⟨sv2, d02, g2, rfl, hn2⟩ := h c2 (by simp [List.mem_cons])
      obtain ⟨hy1, hmt1, hbt1, hpt1, hmb1, hbb1, hpb1⟩ := layout_block_fields sv1 d01 g1 d
      have ht2 := lookup_nonneg sv2 hn2 "margin-top" "margin"
      have hb2n := lookup_nonneg sv2 hn2 "border-top-width" "border-width"
      have hp2n := lookup_nonneg sv2 hn2 "padding-top" "padding"
      unfold marginBoxBottom
      rw [margin_box_y, margin_box_height]
      rw [(layout_block_fields sv2 d02 g2 _).1]
      simp only [hy1, hmt1, hbt1, hpt1, hmb1, hbb1, hpb1]
      linarith

/-- C6: a block parent whose children are block boxes (with non-negative
style lengths, as the CSS parser guarantees since negative lengths cannot be
parsed): after layout, each child's content.y is at least the previous
child's margin-box bottom, and — when the parent has no explicit pixel
`height` — the parent's content.height is the sum of its children's
margin-box heights. -/
theorem c6_vertical_stacking (psv : StyledNode) (children : List LayoutBox) (cb : Dimensions)
    (hch : ∀ c ∈ children, blockWithNonnegStyles c)
    (hh : ∀ q : ℚ, psv.value "height" ≠ some (.Length q .Px)) :
    List.Chain' (fun a b => marginBoxBottom a ≤ b.dimensions.content.y)
      (layout (LayoutBox.mk Dimensions.zero (.BlockNode psv) children) cb).children
    ∧ (layout (LayoutBox.mk Dimensions.zero (.BlockNode psv) children) cb).dimensions.content.height
      = ((layout (LayoutBox.mk Dimensions.zero (.BlockNode psv) children) cb).children.map
          (fun c => c.dimensions.margin_box.height)).sum := by
  simp only [layout, LayoutBox.dimensions, LayoutBox.children]
  constructor
  · exact layoutBlockChildren_chain children _ hch
  · rw [calculate_block_height_id psv _ hh]
    rw [layoutBlockChildren_fst_height]
    have hzero : (calculate_block_position
        (calculate_position_by_styles psv (calculate_block_width psv Dimensions.zero cb))
        cb).content.height = 0 := by
      simp [calculate_block_position, calculate_position_by_styles, calculate_block_width,
        Dimensions.zero, Rect.zero]
    rw [hzero]
    simp [LayoutBox.dimensions]

/-- C6 witness: scenario S2 — a block div with two block children each of
explicit height 20px; the stacking conclusion holds at this concrete input. -/
theorem c6_vertical_stacking_witness :
    List.Chain' (fun a b => marginBoxBottom a ≤ b.dimensions.content.y)
      (layout (LayoutBox.mk Dimensions.zero
        (.BlockNode (.mk (Node.element "div" [] []) [("display", .Keyword "block")] []))
        [LayoutBox.mk Dimensions.zero
            (.BlockNode (.mk (Node.element "p" [] [])
              [("display", .Keyword "block"), ("height", .Length 20 .Px)] [])) [],
         LayoutBox.mk Dimensions.zero
            (.BlockNode (.mk (Node.element "p" [] [])
              [("display", .Keyword "block"), ("height", .Length 20 .Px)] [])) []]) viewport800).children
    ∧ (layout (LayoutBox.mk Dimensions.zero
        (.BlockNode (.mk (Node.element "div" [] []) [("display", .Keyword "block")] []))
        [LayoutBox.mk Dimensions.zero
            (.BlockNode (.mk (Node.element "p" [] [])
              [("display", .Keyword "block"), ("height", .Length 20 .Px)] [])) [],
         LayoutBox.mk Dimensions.zero
            (.BlockNode (.mk (Node.element "p" [] [])
              [("display", .Keyword "block"), ("height", .Length 20 .Px)] [])) []]) viewport800).dimensions.content.height
      = ((layout (LayoutBox.mk Dimensions.zero
          (.BlockNode (.mk (Node.element "div" [] []) [("display", .Keyword "block")] []))
          [LayoutBox.mk Dimensions.zero
              (.BlockNode (.mk (Node.element "p" [] [])
                [("display", .Keyword "block"), ("height", .Length 20 .Px)] [])) [],
           LayoutBox.mk Dimensions.zero
              (.BlockNode (.mk (Node.element "p" [] [])
                [("display", .Keyword "block"), ("height", .Length 20 .Px)] [])) []]) viewport800).children.map
            (fun c => c.dimensions.margin_box.height)).sum :=
  c6_vertical_stacking
    (.mk (Node.element "div" [] []) [("display", .Keyword "block")] [])
    [LayoutBox.mk Dimensions.zero
        (.BlockNode (.mk (Node.element "p" [] [])
          [("display", .Keyword "block"), ("height", .Length 20 .Px)] [])) [],
     LayoutBox.mk Dimensions.zero
        (.BlockNode (.mk (Node.element "p" [] [])
          [("display", .Keyword "block"), ("height", .Length 20 .Px)] [])) []]
    viewport800
    (by
      intro c hc
      rcases List.mem_cons.mp hc with rfl | hc2
      · exact ⟨_, _, _, rfl, by intro p hp; rcases List.mem_cons.mp hp with rfl | hp2 <;>
          simp_all [Value.to_px]⟩
      · rcases List.mem_cons.mp hc2 with rfl | hc3
        · exact ⟨_, _, _, rfl, by intro p hp; rcases List.mem_cons.mp hp with rfl | hp2 <;>
            simp_all [Value.to_px]⟩
        · cases hc3)
    (by
      intro q hq
      rw [show (StyledNode.mk (Node.element "div" [] [])
        [("display", .Keyword "block")] []).value "height" = none from rfl] at hq
      cases hq)

/-! ## Claim C7: anonymous boxes in the built layout tree -/

/-- The kind of a layout box, forgetting the styled node. -/
inductive BoxKind where
  | blockK
  | inlineK
  | anonK
deriving DecidableEq, Repr

def kindOf (b : LayoutBox) : BoxKind :=
  match b.box_type with
  | .BlockNode _ => .blockK
  | .InlineNode _ => .inlineK
  | .AnonymousBlock => .anonK

/-- The claim's grouping, stated on display kinds: reading the laid-out
children of a block parent left to right, a block child contributes a block
box, a maximal run of inline children contributes a single anonymous box,
and display-None children contribute nothing. The boolean records whether
the previous box is an anonymous one (i.e. we are inside an inline run). -/
def groupRuns : Bool → List Display → List BoxKind
  | _, [] => []
  | _, .Block :: rest => .blockK :: groupRuns false rest
  | false, .Inline :: rest => .anonK :: groupRuns true rest
  | true, .Inline :: rest => groupRuns true rest
  | b, .None :: rest => groupRuns b rest

/-- Whether the last box of a list is anonymous (the reuse test of
`get_inline_container`). -/
def lastAnon (cs : List LayoutBox) : Bool :=
  (cs.getLast?).any LayoutBox.isAnonymous

/-- The anonymous-box invariant of a layout tree: no two adjacent anonymous
children anywhere, and a box with an anonymous child is a block box. -/
inductive AnonInv : LayoutBox → Prop where
  | mk : ∀ (d : Dimensions) (t : BoxType) (cs : List LayoutBox),
      List.Chain' (fun a b => a.isAnonymous = false ∨ b.isAnonymous = false) cs →
      ((∃ c ∈ cs, c.isAnonymous = true) → ∃ s, t = BoxType.BlockNode s) →
      (∀ c ∈ cs, AnonInv c) →
      AnonInv (.mk d t cs)

theorem pushChild_box_type (b c : LayoutBox) : (b.pushChild c).box_type = b.box_type := by
  cases b; rfl

theorem pushChild_isAnonymous (b c : LayoutBox) :
    (b.pushChild c).isAnonymous = b.isAnonymous := by
  cases b; rfl

theorem pushChild_kindOf (b c : LayoutBox) : kindOf (b.pushChild c) = kindOf b := by
  cases b; rfl

theorem pushChild_children (b c : LayoutBox) : (b.pushChild c).children = b.children ++ [c] := by
  cases b; rfl

theorem pushChild_dimensions (b c : LayoutBox) : (b.pushChild c).dimensions = b.dimensions := by
  cases b; rfl

theorem pushIntoLast_append (cs : List LayoutBox) (x c : LayoutBox) :
    pushIntoLast (cs ++ [x]) c = cs ++ [x.pushChild c] := by
  induction cs with
  | nil => rfl
  | cons y ys ih =>
    cases ys with
    | nil => simp [pushIntoLast, ih]
    | cons z zs => simp [pushIntoLast] at ih ⊢; exact ih

theorem pushInline_box_type (b c : LayoutBox) : (b.pushInline c).box_type = b.box_type := by
  rcases b with ⟨d, t, cs⟩
  cases t <;>
    simp [LayoutBox.pushInline, LayoutBox.box_type, LayoutBox.pushChild]

/-- Appending a non-anonymous child with the invariant preserves the
invariant. -/
theorem anonInv_pushChild (b c : LayoutBox) (hb : AnonInv b) (hc : AnonInv c)
    (hna : c.isAnonymous = false) : AnonInv (b.pushChild c) := by
  rcases b with ⟨d, t, cs⟩
  rcases hb with ⟨_, _, _, hchain, hblock, hrec⟩
  rw [LayoutBox.pushChild]
  refine AnonInv.mk _ _ _ ?_ ?_ ?_
  · rw [List.chain'_append]
    refine ⟨hchain, List.chain'_singleton _, ?_⟩
    intro x _ y hy
    simp only [List.head?_cons, Option.mem_def, Option.some.injEq] at hy
    subst hy
    right
    exact hna
  · rintro ⟨x, hx, hxanon⟩
    rcases List.mem_append.mp hx with hx' | hx'
    · exact hblock ⟨x, hx', hxanon⟩
    · simp only [List.mem_singleton] at hx'
      subst hx'
      rw [hna] at hxanon
      cases hxanon
  · intro x hx
    rcases List.mem_append.mp hx with hx' | hx'
    · exact hrec x hx'
    · simp only [List.mem_singleton] at hx'
      subst hx'
      exact hc

theorem lastAnon_concat (cs : List LayoutBox) (x : LayoutBox) :
    lastAnon (cs ++ [x]) = x.isAnonymous := by
  simp [lastAnon, List.getLast?_concat]

/-- Pushing into the last box of a non-empty list preserves the kind map. -/
theorem pushIntoLast_map_kind (cs : List LayoutBox) (c : LayoutBox) (h : cs ≠ []) :
    (pushIntoLast cs c).map kindOf = cs.map kindOf := by
  rw [← List.dropLast_append_getLast h, pushIntoLast_append]
  simp [pushChild_kindOf]

/-- Pushing into the last box of a non-empty list preserves the anonymity map. -/
theorem pushIntoLast_map_isAnon (cs : List LayoutBox) (c : LayoutBox) (h : cs ≠ []) :
    (pushIntoLast cs c).map LayoutBox.isAnonymous = cs.map LayoutBox.isAnonymous := by
  rw [← List.dropLast_append_getLast h, pushIntoLast_append]
  simp [pushChild_isAnonymous]

/-- The adjacency relation of the invariant only depends on anonymity. -/
theorem chain'_of_map_isAnon (cs cs' : List LayoutBox)
    (h : cs.map LayoutBox.isAnonymous = cs'.map LayoutBox.isAnonymous)
    (hc : List.Chain' (fun a b => a.isAnonymous = false ∨ b.isAnonymous = false) cs) :
    List.Chain' (fun a b => a.isAnonymous = false ∨ b.isAnonymous = false) cs' := by
  have h1 : List.Chain' (fun a b => a = false ∨ b = false) (cs.map LayoutBox.isAnonymous) :=
    (List.chain'_map (R := fun a b => a = false ∨ b = false) LayoutBox.isAnonymous).mpr hc
  rw [h] at h1
  exact (List.chain'_map (R := fun a b => a = false ∨ b = false) LayoutBox.isAnonymous).mp h1

/-- Pushing an inline (non-anonymous) box with the invariant into the inline
container preserves the invariant. -/
theorem anonInv_pushInline (b c : LayoutBox) (hb : AnonInv b) (hc : AnonInv c)
    (hna : c.isAnonymous = false) : AnonInv (b.pushInline c) := by
  rcases b with ⟨d, t, cs⟩
  cases t with
  | InlineNode s =>
    have : (LayoutBox.mk d (.InlineNode s) cs).pushInline c
        = (LayoutBox.mk d (.InlineNode s) cs).pushChild c := rfl
    rw [this]
    exact anonInv_pushChild _ c hb hc hna
  | AnonymousBlock =>
    have : (LayoutBox.mk d .AnonymousBlock cs).pushInline c
        = (LayoutBox.mk d .AnonymousBlock cs).pushChild c := rfl
    rw [this]
    exact anonInv_pushChild _ c hb hc hna
  | BlockNode s =>
    rcases hb with ⟨_, _, _, hchain, _, hrec⟩
    show AnonInv (LayoutBox.mk d (.BlockNode s)
      (pushIntoLast
        (if ((cs.getLast?).any LayoutBox.isAnonymous) = true then cs
         else cs ++ [LayoutBox.new .AnonymousBlock]) c))
    by_cases hlast : ((cs.getLast?).any LayoutBox.isAnonymous) = true
    · rw [if_pos hlast]
      have hne : cs ≠ [] := by
        intro hnil
        subst hnil
        simp at hlast
      refine AnonInv.mk _ _ _ ?_ (fun _ => ⟨s, rfl⟩) ?_
      · exact chain'_of_map_isAnon cs _ (pushIntoLast_map_isAnon cs c hne).symm hchain
      · intro x hx
        rw [← List.dropLast_append_getLast hne, pushIntoLast_append] at hx
        rcases List.mem_append.mp hx with hx' | hx'
        · exact hrec x (List.dropLast_subset _ hx')
        · simp only [List.mem_singleton] at hx'
          subst hx'
          exact anonInv_pushChild _ c (hrec _ (List.getLast_mem hne)) hc hna
    · rw [if_neg hlast]
      rw [pushIntoLast_append]
      have hanon : (LayoutBox.new .AnonymousBlock).pushChild c
          = LayoutBox.mk Dimensions.zero .AnonymousBlock [c] := rfl
      rw [hanon]
      refine AnonInv.mk _ _ _ ?_ (fun _ => ⟨s, rfl⟩) ?_
      · rw [List.chain'_append]
        refine ⟨hchain, List.chain'_singleton _, ?_⟩
        intro x hx y hy
        simp only [List.head?_cons, Option.mem_def, Option.some.injEq] at hy
        subst hy
        left
        have : cs.getLast? = some x := hx
        simp only [Option.any] at hlast
        rw [this] at hlast
        simpa using hlast
      · intro x hx
        rcases List.mem_append.mp hx with hx' | hx'
        · exact hrec x hx'
        · simp only [List.mem_singleton] at hx'
          subst hx'
          refine AnonInv.mk _ _ _ (List.chain'_singleton _) ?_ ?_
          · rintro ⟨y, hy, hyanon⟩
            simp only [List.mem_singleton] at hy
            subst hy
            rw [hna] at hyanon
            cases hyanon
          · intro y hy
            simp only [List.mem_singleton] at hy
            subst hy
            exact hc

/-- The child loop of the builder preserves the box type of the root. -/
theorem buildChildren_box_type (cs : List StyledNode) :
    ∀ box : LayoutBox, (buildChildren box cs).box_type = box.box_type := by
  induction cs with
  | nil => intro box; rfl
  | cons c rest ih =>
    intro box
    simp only [buildChildren]
    cases c.display
    · rw [ih, pushChild_box_type]
    · rw [ih, pushInline_box_type]
    · rw [ih]

/-- The box type of a built box is Block or Inline according to the styled
node's display (never anonymous; display None is excluded by the caller). -/
theorem buildBox_box_type (s : StyledNode) :
    (buildBox s).box_type
      = match s.display with
        | .Block => BoxType.BlockNode s
        | _ => BoxType.InlineNode s := by
  rcases s with ⟨n, sv, cs⟩
  simp only [buildBox]
  rw [buildChildren_box_type]
  cases (StyledNode.mk n sv cs).display <;> rfl

theorem buildBox_not_anon (s : StyledNode) : (buildBox s).isAnonymous = false := by
  unfold LayoutBox.isAnonymous
  rw [buildBox_box_type]
  cases s.display <;> rfl

/-- The child loop preserves the anonymous-box invariant. -/
theorem buildChildren_anonInv (cs : List StyledNode) :
    ∀ box : LayoutBox,
      (∀ c ∈ cs, AnonInv (buildBox c)) →
      AnonInv box →
      AnonInv (buildChildren box cs) := by
  induction cs with
  | nil => intro box _ hbox; exact hbox
  | cons c rest ih =>
    intro box h hbox
    simp only [buildChildren]
    have hc := h c (by simp)
    have hrest : ∀ x ∈ rest, AnonInv (buildBox x) :=
      fun x hx => h x (List.mem_cons_of_mem _ hx)
    cases c.display
    · exact ih _ hrest (anonInv_pushChild box _ hbox hc (buildBox_not_anon c))
    · exact ih _ hrest (anonInv_pushInline box _ hbox hc (buildBox_not_anon c))
    · exact ih _ hrest hbox

/-- Every built layout tree satisfies the anonymous-box invariant. -/
theorem anonInv_buildBox : ∀ (n : ℕ) (s : StyledNode), sizeOf s = n → AnonInv (buildBox s) := by
  intro n
  induction n using Nat.strong_induction_on with
  | _ n ih =>
    intro s hs
    rcases s with ⟨nd, sv, cs⟩
    simp only [buildBox]
    apply buildChildren_anonInv
    · intro c hc
      have hlt : sizeOf c < n := by
        have h1 := List.sizeOf_lt_of_mem hc
        subst hs
        simp only [StyledNode.mk.sizeOf_spec]
        omega
      exact ih (sizeOf c) hlt c rfl
    · exact AnonInv.mk _ _ [] (by simp) (by simp) (by simp)

/-- The child loop of the builder under a block root: the kinds of the
accumulated children, with each maximal inline run grouped into one
anonymous wrapper. -/
theorem buildChildren_kinds (cs : List StyledNode) :
    ∀ (d : Dimensions) (sv : StyledNode) (bcs : List LayoutBox),
      (buildChildren (.mk d (.BlockNode sv) bcs) cs).children.map kindOf
        = bcs.map kindOf ++ groupRuns (lastAnon bcs) (cs.map StyledNode.display) := by
  induction cs with
  | nil =>
    intro d sv bcs
    simp [buildChildren, groupRuns, LayoutBox.children]
  | cons c rest ih =>
    intro d sv bcs
    simp only [buildChildren, List.map_cons]
    cases hd : c.display
    · -- Block child: a block box is appended; the run state resets
      have hstep : (LayoutBox.mk d (.BlockNode sv) bcs).pushChild (buildBox c)
          = LayoutBox.mk d (.BlockNode sv) (bcs ++ [buildBox c]) := rfl
      rw [hstep, ih, groupRuns]
      have hkind : kindOf (buildBox c) = .blockK := by
        unfold kindOf
        rw [buildBox_box_type, hd]
      rw [lastAnon_concat, buildBox_not_anon]
      simp [hkind]
    · -- Inline child: goes into the trailing anonymous container
      have hstep : (LayoutBox.mk d (.BlockNode sv) bcs).pushInline (buildBox c)
          = LayoutBox.mk d (.BlockNode sv)
              (pushIntoLast
                (if ((bcs.getLast?).any LayoutBox.isAnonymous) = true then bcs
                 else bcs ++ [LayoutBox.new .AnonymousBlock]) (buildBox c)) := rfl
      rw [hstep]
      by_cases hlast : ((bcs.getLast?).any LayoutBox.isAnonymous) = true
      · rw [if_pos hlast]
        have hne : bcs ≠ [] := by
          intro hnil; subst hnil; simp at hlast
        rw [ih, pushIntoLast_map_kind _ _ hne]
        have hla : lastAnon (pushIntoLast bcs (buildBox c)) = true := by
          rw [← List.dropLast_append_getLast hne, pushIntoLast_append, lastAnon_concat,
            pushChild_isAnonymous]
          rw [← List.dropLast_append_getLast hne] at hlast
          simpa [List.getLast?_concat] using hlast
        rw [hla]
        have hla0 : lastAnon bcs = true := hlast
        rw [hla0, groupRuns]
      · rw [if_neg hlast]
        rw [pushIntoLast_append, ih]
        have hanon : (LayoutBox.new .AnonymousBlock).pushChild (buildBox c)
            = LayoutBox.mk Dimensions.zero .AnonymousBlock [buildBox c] := rfl
        rw [hanon, lastAnon_concat]
        have hla0 : lastAnon bcs = false := by
          unfold lastAnon
          exact Bool.not_eq_true _ ▸ hlast
        rw [hla0, groupRuns]
        simp [kindOf, LayoutBox.box_type, LayoutBox.isAnonymous]
    · -- display None: skipped
      rw [ih, groupRuns]

/-- For a block-display styled node, the children of the built box are: one
block box per block child, one anonymous wrapper per maximal run of inline
children, in order. -/
theorem buildBox_kinds_block (s : StyledNode) (hs : s.display = .Block) :
    (buildBox s).children.map kindOf = groupRuns false (s.children.map StyledNode.display) := by
  rcases s with ⟨n, sv, cs⟩
  simp only [buildBox]
  rw [hs]
  have hnew : LayoutBox.new (BoxType.BlockNode (StyledNode.mk n sv cs))
      = LayoutBox.mk Dimensions.zero (.BlockNode (StyledNode.mk n sv cs)) [] := rfl
  rw [hnew, buildChildren_kinds]
  simp [lastAnon, StyledNode.children]

/-- C7: for every styled node on which `build_layout_tree` succeeds, the
resulting tree has no box with two adjacent Anonymous children, every
Anonymous box is a direct child of a Block box (the root itself is never
anonymous), and — for a block root — the children are exactly: a block box
per block child and a single Anonymous wrapper per maximal run of
consecutive inline children. (Quantifying over all styled nodes covers every
block box of every tree, since each is itself built from a styled node.) -/
theorem c7_anonymous_invariants (s : StyledNode) (root : LayoutBox)
    (h : build_layout_tree s = some root) :
    AnonInv root
    ∧ root.isAnonymous = false
    ∧ (s.display = .Block →
        root.children.map kindOf = groupRuns false (s.children.map StyledNode.display)) := by
  unfold build_layout_tree at h
  have hroot : root = buildBox s := by
    cases hd : s.display <;> rw [hd] at h <;> simp at h <;> exact h.symm
  subst hroot
  exact ⟨anonInv_buildBox (sizeOf s) s rfl, buildBox_not_anon s,
    fun hb => buildBox_kinds_block s hb⟩

/-- The styled tree of scenario S5: a block div whose children are an inline
text, an inline span (with an inline text child), and another inline text. -/
def s5Styled : StyledNode :=
  .mk (Node.element "div" [] []) [("display", .Keyword "block")]
    [ .mk (Node.text "a") [] [],
      .mk (Node.element "span" [] []) [("display", .Keyword "inline")] [.mk (Node.text "b") [] []],
      .mk (Node.text "c") [] [] ]

/-- C7 witness: scenario S5 — the three consecutive inline children of the
block div are wrapped in a single Anonymous box. -/
theorem c7_anonymous_invariants_witness :
    (AnonInv (buildBox s5Styled)
      ∧ (buildBox s5Styled).isAnonymous = false
      ∧ (s5Styled.display = .Block →
          (buildBox s5Styled).children.map kindOf
            = groupRuns false (s5Styled.children.map StyledNode.display)))
    ∧ (buildBox s5Styled).children.map kindOf = [BoxKind.anonK] :=
  ⟨c7_anonymous_invariants s5Styled (buildBox s5Styled) rfl, rfl⟩

/-! ## Claim C8: html parse returns the last top-level node -/

/-- C8: whenever the top-level node sequence parses successfully and is
non-empty — whitespace and multiple top-level nodes allowed — `html::parse`
returns its last node as the root. -/
theorem c8_parse_returns_last (source : String) (ns : List Node) (rest : List Char)
    (h : Html.parseNodes (2 * source.length + 2) source.toList = some (ns, rest))
    (hne : ns ≠ []) :
    Html.parse source = some (ns.getLast hne) := by
  unfold Html.parse
  rw [h]
  exact List.getLast?_eq_getLast ns hne

/-- C8 witness: two top-level elements with surrounding whitespace; the parse
returns the second. -/
theorem c8_parse_returns_last_witness :
    Html.parseNodes (2 * (" <a></a> <b></b> " : String).length + 2)
        (" <a></a> <b></b> " : String).toList
      = some ([Node.element "a" [] [], Node.element "b" [] []], [])
    ∧ Html.parse " <a></a> <b></b> "
      = some ([Node.element "a" [] [], Node.element "b" [] []].getLast (by simp)) :=
  ⟨rfl,
    c8_parse_returns_last " <a></a> <b></b> "
      [Node.element "a" [] [], Node.element "b" [] []] [] rfl (by simp)⟩

/-! ## Claim C10: html parse fails on an empty top-level sequence -/

/-- C10: on a source that is empty or all whitespace, the node loop consumes
everything and produces no node, and `parse`'s `nodes.pop().unwrap()` panics
(modelled as `none`) instead of returning a root. -/
theorem c10_whitespace_parse_fails (source : String)
    (h : ∀ c ∈ source.toList, c.isWhitespace = true) :
    Html.parse source = none := by
  unfold Html.parse
  have hdrop : source.toList.dropWhile Char.isWhitespace = [] := by
    rw [List.dropWhile_eq_nil_iff]
    exact h
  rw [show 2 * source.length + 2 = (2 * source.length + 1) + 1 from rfl]
  simp only [Html.parseNodes]
  rw [hdrop]
  rfl

/-- C10 witness: the empty source and a whitespace-only source both fail. -/
theorem c10_whitespace_parse_fails_witness :
    (∀ c ∈ ("" : String).toList, c.isWhitespace = true)
    ∧ (∀ c ∈ ("  \n " : String).toList, c.isWhitespace = true)
    ∧ Html.parse "" = none
    ∧ Html.parse "  \n " = none :=
  ⟨by decide, by decide,
    c10_whitespace_parse_fails "" (by decide),
    c10_whitespace_parse_fails "  \n " (by decide)⟩

/-! ## Claim C9: the rasterizer never fails -/

theorem paint_item_width (canvas : Canvas) (item : DisplayCommand) :
    (canvas.paint_item item).width = canvas.width := by
  cases item <;> rfl

theorem paint_item_height (canvas : Canvas) (item : DisplayCommand) :
    (canvas.paint_item item).height = canvas.height := by
  cases item <;> rfl

theorem foldl_set_length (idxs : List ℕ) (color : Color) :
    ∀ px : List Color, (idxs.foldl (fun px i => px.set i color) px).length = px.length := by
  induction idxs with
  | nil => intro px; rfl
  | cons i rest ih =>
    intro px
    simp only [List.foldl_cons]
    rw [ih, List.length_set]

theorem paint_item_length (canvas : Canvas) (item : DisplayCommand) :
    (canvas.paint_item item).pixels.length = canvas.pixels.length := by
  cases item <;> simp only [Canvas.paint_item] <;> exact foldl_set_length _ _ _

theorem foldl_paint_items (items : List DisplayCommand) :
    ∀ canvas : Canvas,
      (items.foldl Canvas.paint_item canvas).width = canvas.width
      ∧ (items.foldl Canvas.paint_item canvas).height = canvas.height
      ∧ (items.foldl Canvas.paint_item canvas).pixels.length = canvas.pixels.length := by
  induction items with
  | nil => intro canvas; exact ⟨rfl, rfl, rfl⟩
  | cons it rest ih =>
    intro canvas
    simp only [List.foldl_cons]
    rcases ih (canvas.paint_item it) with ⟨hw, hh, hl⟩
    rw [hw, hh, hl, paint_item_width, paint_item_height, paint_item_length]
    exact ⟨rfl, rfl, rfl⟩

/-- The clipped coordinates stay within the canvas. -/
theorem qToUsize_clamp_le (v : ℚ) (w : ℕ) : qToUsize (qClamp v 0 w) ≤ w := by
  unfold qToUsize qClamp
  have h1 : max (0 : ℚ) (min v w) ≤ (w : ℚ) :=
    max_le (by exact_mod_cast Nat.zero_le w) (min_le_right _ _)
  have h2 : ⌊max (0 : ℚ) (min v w)⌋ ≤ ⌊(w : ℚ)⌋ := Int.floor_le_floor h1
  rw [Int.floor_natCast] at h2
  exact Int.toNat_le.mpr h2

/-- Every pixel index a display command writes is within the pixel buffer. -/
theorem clipIndices_lt (w h : ℕ) (r : Rect) (i : ℕ) (hi : i ∈ clipIndices w h r) :
    i < w * h := by
  unfold clipIndices at hi
  simp only [List.mem_flatMap, List.mem_map] at hi
  rcases hi with ⟨y, hy, x, hx, rfl⟩
  have hx' := List.mem_range'.mp hx
  have hy' := List.mem_range'.mp hy
  have hxlt : x < qToUsize (qClamp (r.x + r.width) 0 w) := by omega
  have hylt : y < qToUsize (qClamp (r.y + r.height) 0 h) := by omega
  have hxw : x < w := lt_of_lt_of_le hxlt (qToUsize_clamp_le _ _)
  have hyh : y < h := lt_of_lt_of_le hylt (qToUsize_clamp_le _ _)
  calc x + y * w < w + y * w := by omega
    _ = (y + 1) * w := by ring
    _ ≤ h * w := Nat.mul_le_mul_right w (by omega)
    _ = w * h := Nat.mul_comm h w

/-- C9: the rasterizer is total. For every box tree and bounds the canvas is
a `width × height` pixel buffer initialized to opaque white, its size is
preserved by every paint command, and every index a command writes (its
rectangle clipped to the canvas bounds) is within the buffer — the pixel
store `self.pixels[x + y * self.width] = color` can never go out of
bounds. -/
theorem c9_paint_never_fails (layout_root : LayoutBox) (bounds : Rect)
    (w h : ℕ) (r : Rect) (i : ℕ) (hi : i ∈ clipIndices w h r) :
    (paint layout_root bounds).width = qToUsize bounds.width
    ∧ (paint layout_root bounds).height = qToUsize bounds.height
    ∧ (paint layout_root bounds).pixels.length
        = qToUsize bounds.width * qToUsize bounds.height
    ∧ (Canvas.new (qToUsize bounds.width) (qToUsize bounds.height)).pixels
        = List.replicate (qToUsize bounds.width * qToUsize bounds.height) whitePixel
    ∧ i < w * h := by
  rcases foldl_paint_items (build_display_list layout_root)
    (Canvas.new (qToUsize bounds.width) (qToUsize bounds.height)) with ⟨hw, hh, hl⟩
  refine ⟨?_, ?_, ?_, rfl, clipIndices_lt w h r i hi⟩
  · exact hw
  · exact hh
  · rw [paint, hl]
    simp [Canvas.new]

/-- C9 witness: a full-canvas solid rectangle on a 4×3 canvas; index 11 (the
last pixel) is written and is within the 12-pixel buffer. -/
theorem c9_paint_never_fails_witness :
    (11 ∈ clipIndices 4 3 ⟨4, 3, 0, 0⟩)
    ∧ ((paint (LayoutBox.new .AnonymousBlock) ⟨4, 3, 0, 0⟩).width = qToUsize (4 : ℚ)
      ∧ (paint (LayoutBox.new .AnonymousBlock) ⟨4, 3, 0, 0⟩).height = qToUsize (3 : ℚ)
      ∧ (paint (LayoutBox.new .AnonymousBlock) ⟨4, 3, 0, 0⟩).pixels.length
          = qToUsize (4 : ℚ) * qToUsize (3 : ℚ)
      ∧ (Canvas.new (qToUsize (4 : ℚ)) (qToUsize (3 : ℚ))).pixels
          = List.replicate (qToUsize (4 : ℚ) * qToUsize (3 : ℚ)) whitePixel
      ∧ 11 < 4 * 3) :=
  ⟨by
      unfold clipIndices
      norm_num [qClamp, qToUsize]
      exact ⟨2, by norm_num, 3, by norm_num, by norm_num⟩,
    c9_paint_never_fails (LayoutBox.new .AnonymousBlock) ⟨4, 3, 0, 0⟩ 4 3 ⟨4, 3, 0, 0⟩ 11
      (by
        unfold clipIndices
        norm_num [qClamp, qToUsize]
        exact ⟨2, by norm_num, 3, by norm_num, by norm_num⟩)⟩

end Yoyo
